import Mathlib

/-!
Verification of the WaveMCP waveform-inspection engine against its
natural-language specification.

The development shallowly embeds the Python sources:
* `src/utils/format.py`      — bit-vector value formatting (`format_value`),
* `src/utils/float_convert.py` — IEEE-754 float/hex/binary codec,
* `src/parsers/fst_parser.py` and `src/parsers/vcd_parser.py` — signal
  listing and time-ranged value extraction,
* `src/parsers/__init__.py` and the tool layer — session state and guards.

Python strings are Lean `String`s (operated on through their `.data`
character lists), Python ints are `ℤ`/`ℕ`, Python floats are modelled by
`F754` (sign plus exact rational magnitude; every IEEE binary64 value an
input can take is an exact rational, so the model is conservative), and
fallible code returns `Except`.
-/

/-! ### Python string primitives (ASCII behaviour, as used by the repo) -/

/-- Python `str.lower()` on a string (ASCII case mapping, which is all the
repo's inputs use). -/
def strLower (s : String) : String := ⟨s.data.map Char.toLower⟩

/-- Python `str.upper()` (ASCII case mapping). -/
def strUpper (s : String) : String := ⟨s.data.map Char.toUpper⟩

/-- List-level starts-with test (`l` begins with `p`). -/
def startsL : List Char → List Char → Bool
  | [], _ => true
  | _ :: _, [] => false
  | p :: ps, c :: cs => p = c && startsL ps cs

/-- Python substring containment `p in l` (contiguous-subsequence test;
the empty pattern is contained in everything, as in Python). -/
def subOf (p : List Char) : List Char → Bool
  | [] => startsL p []
  | c :: cs => startsL p (c :: cs) || subOf p cs

/-- Characters Python `str.strip()` removes. -/
def isPySpace (c : Char) : Bool :=
  c = ' ' || c = '\t' || c = '\n' || c = '\r' || c = (Char.ofNat 11) || c = (Char.ofNat 12)

/-- Python `str.strip()`. -/
def pyStrip (s : String) : String :=
  ⟨((s.data.dropWhile isPySpace).reverse.dropWhile isPySpace).reverse⟩

/-- Python `str.zfill(w)` restricted to unsigned payloads: left-pad with
zeros up to width `w` (the repo never feeds `zfill` a sign character, so
the sign-aware corner of Python `zfill` is not modelled). -/
def zfill (w : ℕ) (s : String) : String :=
  ⟨List.replicate (w - s.data.length) '0' ++ s.data⟩

/-! ### src/utils/format.py -/

/-- `contains_unknown` (format.py lines 4-6): whether the value contains an
unknown state `x`/`z` in any case. -/
def contains_unknown (value : String) : Bool :=
  (strLower value).data.contains 'x' || (strLower value).data.contains 'z'

/-- Binary digit test for the model of Python `int(value, 2)`. -/
def isBinDigit (c : Char) : Bool := c = '0' || c = '1'

/-- Value of a binary digit string (most significant first). -/
def binValL (l : List Char) : ℕ :=
  l.foldl (fun a c => 2 * a + (if c = '1' then 1 else 0)) 0

/-- Model of Python `int(value, 2)`: succeeds on nonempty strings of
`0`/`1` digits.  (Python additionally tolerates surrounding whitespace, a
sign and isolated underscores; none of those inputs are exercised by the
claims, and on all other inputs both raise/return an error.) -/
def pyIntBase2 (s : String) : Option ℕ :=
  if s.data ≠ [] ∧ s.data.all isBinDigit then some (binValL s.data) else none

/-- Uppercase hex digit characters. -/
def hexDigitChar (n : ℕ) : Char :=
  "0123456789ABCDEF".data.getD n '0'

/-- Little-endian hex digits of `n` (fuel-driven so that the kernel can
evaluate it). -/
def hexRevF : ℕ → ℕ → List Char
  | 0, _ => []
  | f + 1, n => if n = 0 then [] else hexDigitChar (n % 16) :: hexRevF f (n / 16)

/-- Minimal-width uppercase hex rendering of `n`, Python `format(n, "X")`. -/
def natHex (n : ℕ) : List Char :=
  if n = 0 then ['0'] else (hexRevF n n).reverse

/-- Python `format(n, "0{w}X")`: uppercase hex padded with zeros to at
least width `w`. -/
def natHexPad (w : ℕ) (n : ℕ) : List Char :=
  List.replicate (w - (natHex n).length) '0' ++ natHex n

/-- The warning `format_value` emits for values with unknown states
(format.py line 41; the single quotes of the f-string around the value are
elided from the model). -/
def warnUnknown (value : String) : String :=
  "Value " ++ value ++ " contains x/z states, falling back to binary format"

/-- The warning `format_value` emits for values that fail to parse as
binary (format.py line 49). -/
def warnUnparsed (value : String) : String :=
  "Value " ++ value ++ " could not be parsed as binary, falling back to binary format"

/-- `format_value` (format.py lines 9-55): format a raw binary signal
value as `bin`, `hex` or `dec`, with fallback-to-binary plus warning for
values containing unknown states or failing to parse; unknown format
selectors raise `ValueError` (modelled as `.error`). -/
def format_value (value : String) (fmt : String) : Except String (String × Option String) :=
  if strLower fmt ≠ "bin" ∧ strLower fmt ≠ "hex" ∧ strLower fmt ≠ "dec" then
    .error ("Invalid format " ++ fmt ++ ". Must be bin, hex, or dec.")
  else if strLower fmt = "bin" then
    .ok ("b" ++ value, none)
  else if contains_unknown value then
    .ok ("b" ++ value, some (warnUnknown value))
  else
    match pyIntBase2 value with
    | none => .ok ("b" ++ value, some (warnUnparsed value))
    | some n =>
      if strLower fmt = "hex" then .ok ("0x" ++ String.mk (natHex n), none)
      else .ok (Nat.repr n, none)

/-! ### Basic facts about the string primitives -/

theorem string_append_data (a b : String) : (a ++ b).data = a.data ++ b.data := rfl

theorem warnUnknown_ne_empty (value : String) : warnUnknown value ≠ "" := by
  intro h
  have hd : (warnUnknown value).data = [] := by rw [h]
  have : (warnUnknown value).data = "Value ".data ++ value.data ++ " contains x/z states, falling back to binary format".data := by
    show ("Value " ++ value ++ " contains x/z states, falling back to binary format").data = _
    rw [string_append_data, string_append_data]
  rw [this] at hd
  simp at hd

theorem warnUnparsed_ne_empty (value : String) : warnUnparsed value ≠ "" := by
  intro h
  have hd : (warnUnparsed value).data = [] := by rw [h]
  have : (warnUnparsed value).data = "Value ".data ++ value.data ++ " could not be parsed as binary, falling back to binary format".data := by
    show ("Value " ++ value ++ " could not be parsed as binary, falling back to binary format").data = _
    rw [string_append_data, string_append_data]
  rw [this] at hd
  simp at hd

theorem strLower_bin : strLower "bin" = "bin" := by decide

theorem strLower_hex : strLower "hex" = "hex" := by decide

theorem strLower_dec : strLower "dec" = "dec" := by decide

/-- C5: on any input containing `x`/`z` (either case), `format_value`
with target `hex` or `dec` returns the `b`-prefixed original value plus a
non-empty warning, while target `bin` returns the `b`-prefixed value with
no warning; and target `bin` never warns on any input. -/
theorem c5_format_value_unknown_fallback (value : String) :
    (contains_unknown value = true →
      format_value value "hex" = .ok ("b" ++ value, some (warnUnknown value)) ∧
      format_value value "dec" = .ok ("b" ++ value, some (warnUnknown value)) ∧
      warnUnknown value ≠ "") ∧
    format_value value "bin" = .ok ("b" ++ value, none) := by
  constructor
  · intro h
    refine ⟨?_, ?_, warnUnknown_ne_empty value⟩ <;>
      simp [format_value, h, strLower_hex, strLower_dec]
  · simp [format_value, strLower_bin]

/-- C5 witness: concrete evaluation at the unknown-state value `1x0z`. -/
theorem c5_format_value_unknown_fallback_witness :
    contains_unknown "1x0z" = true ∧
    format_value "1x0z" "hex" = .ok ("b" ++ "1x0z", some (warnUnknown "1x0z")) ∧
    format_value "1x0z" "bin" = .ok ("b" ++ "1x0z", none) :=
  ⟨by decide,
    ((c5_format_value_unknown_fallback "1x0z").1 (by decide)).1,
    (c5_format_value_unknown_fallback "1x0z").2⟩

/-! ### Signal table and the signal-listing operation -/

/-- One row of the parser's eagerly built signal table (`self._signals`
in fst_parser.py lines 38-47): name, declared type, width, full
hierarchical path and the container-internal handle. -/
structure SigInfo where
  name : String
  type : String
  size : ℕ
  path : String
  handle : ℕ
deriving DecidableEq

/-- A signal entry as returned to callers: the table row without the
internal `handle` key (fst_parser.py line 88). -/
structure SigOut where
  name : String
  type : String
  size : ℕ
  path : String
deriving DecidableEq

/-- Dropping the internal handle from a table row. -/
def SigInfo.dropHandle (s : SigInfo) : SigOut := ⟨s.name, s.type, s.size, s.path⟩

/-- `FstParser.get_signal_list` (fst_parser.py lines 49-93) extended with
the listing pattern filter.  Modelled from the spec: the repository's
`pattern` / `use_regex` handling of the listing operation is missing from
src/ (the module `src/tools/fst_tools.py` is imported by
`src/tools/__init__.py` but absent, and the caller `get_vcd_signals` in
vcd_tools.py line 71 passes `pattern` and `use_regex` through to
`get_signal_list`); following the spec text "(c) pattern match against
path or name per the selected mode" with an empty pattern meaning no
filter, and with the regular-expression engine (Python `re`, an external
collaborator) abstracted as the `regexMatch` argument.  The module-path,
depth and limit logic is the source's own. -/
def get_signal_list (regexMatch : String → String → Bool) (signals : List SigInfo)
    (module_path : String) (max_depth : ℤ) (limit : ℤ)
    (pattern : String) (useRegex : Bool) : List SigOut × ℕ :=
  let module_depth : ℤ := if module_path = "" then 0 else (module_path.data.count '.' : ℤ) + 1
  let kept := signals.foldl (fun acc sig =>
    if module_path ≠ "" ∧ ¬ startsL (module_path ++ ".").data sig.path.data then acc
    else if 0 ≤ max_depth ∧ max_depth < (sig.path.data.count '.' : ℤ) - module_depth + 1 then acc
    else if ¬ (pattern = "" ∨
        (if useRegex then regexMatch pattern sig.path ∨ regexMatch pattern sig.name
         else subOf pattern.data sig.path.data ∨ subOf pattern.data sig.name.data)) then acc
    else acc ++ [sig.dropHandle]) []
  let total := kept.length
  (if 0 < limit then kept.take limit.toNat else kept, total)

/-- Number of hierarchy segments of a dot-joined path, as the spec counts
them; the empty module path denotes the root and has no segments. -/
def segCount (s : String) : ℕ :=
  if s = "" then 0 else s.data.count '.' + 1

/-- The claim-side keep-predicate for the listing filter: module-path
match, relative depth (difference of segment counts) within `max_depth`
when non-negative, and pattern match per the selected mode. -/
def listingKeep (regexMatch : String → String → Bool) (module_path : String)
    (max_depth : ℤ) (pattern : String) (useRegex : Bool) (sig : SigInfo) : Bool :=
  (decide (module_path = "") || startsL (module_path ++ ".").data sig.path.data) &&
  (decide (max_depth < 0) ||
    decide ((segCount sig.path : ℤ) - (segCount module_path : ℤ) ≤ max_depth)) &&
  (decide (pattern = "") ||
    (if useRegex then regexMatch pattern sig.path || regexMatch pattern sig.name
     else subOf pattern.data sig.path.data || subOf pattern.data sig.name.data))

theorem get_signal_list_loop (regexMatch : String → String → Bool)
    (module_path : String) (max_depth : ℤ) (pattern : String) (useRegex : Bool)
    (signals : List SigInfo) (acc : List SigOut)
    (hpaths : ∀ sig ∈ signals, sig.path ≠ "") :
    signals.foldl (fun acc sig =>
      if module_path ≠ "" ∧ ¬ startsL (module_path ++ ".").data sig.path.data then acc
      else if 0 ≤ max_depth ∧ max_depth <
          (sig.path.data.count '.' : ℤ) -
            (if module_path = "" then 0 else (module_path.data.count '.' : ℤ) + 1) + 1 then acc
      else if ¬ (pattern = "" ∨
          (if useRegex then regexMatch pattern sig.path ∨ regexMatch pattern sig.name
           else subOf pattern.data sig.path.data ∨ subOf pattern.data sig.name.data)) then acc
      else acc ++ [sig.dropHandle]) acc =
    acc ++ (signals.filter (listingKeep regexMatch module_path max_depth pattern useRegex)).map
        SigInfo.dropHandle := by
  induction signals generalizing acc with
  | nil => simp
  | cons sig rest ih =>
    have hpath : sig.path ≠ "" := hpaths sig (by simp)
    have hrest : ∀ s ∈ rest, s.path ≠ "" := fun s hs => hpaths s (by simp [hs])
    have key : (segCount sig.path : ℤ) - (segCount module_path : ℤ) =
        (sig.path.data.count '.' : ℤ) -
          (if module_path = "" then 0 else (module_path.data.count '.' : ℤ) + 1) + 1 := by
      unfold segCount
      split_ifs with h h2
      · exact absurd h hpath
      · exact absurd h hpath
      · push_cast; omega
      · push_cast; omega
    have hq : ((decide (pattern = "") ||
        (if useRegex then regexMatch pattern sig.path || regexMatch pattern sig.name
         else subOf pattern.data sig.path.data || subOf pattern.data sig.name.data)) = true) ↔
        (pattern = "" ∨
          (if useRegex then regexMatch pattern sig.path ∨ regexMatch pattern sig.name
           else subOf pattern.data sig.path.data ∨ subOf pattern.data sig.name.data)) := by
      cases useRegex <;> simp
    simp only [List.foldl_cons, List.filter_cons]
    by_cases h1 : module_path ≠ "" ∧ ¬ startsL (module_path ++ ".").data sig.path.data
    · have e1 : decide (module_path = "") = false := by simp [h1.1]
      have e2 : startsL (module_path ++ ".").data sig.path.data = false :=
        Bool.eq_false_iff.mpr h1.2
      have hfalse : listingKeep regexMatch module_path max_depth pattern useRegex sig = false := by
        unfold listingKeep
        rw [e1, e2]
        simp
      rw [if_pos h1, ih _ hrest, hfalse]
      simp
    · have e1 : (decide (module_path = "") ||
          startsL (module_path ++ ".").data sig.path.data) = true := by
        rcases not_and_or.mp h1 with h | h
        · rw [not_not.mp h]
          simp
        · rw [not_not.mp h, Bool.or_true]
      rw [if_neg h1]
      by_cases h2 : 0 ≤ max_depth ∧ max_depth <
          (sig.path.data.count '.' : ℤ) -
            (if module_path = "" then 0 else (module_path.data.count '.' : ℤ) + 1) + 1
      · have e4 : decide ((segCount sig.path : ℤ) - (segCount module_path : ℤ) ≤ max_depth)
            = false := by
          rw [decide_eq_false_iff_not, key]
          omega
        have e3 : decide (max_depth < (0:ℤ)) = false := by
          rw [decide_eq_false_iff_not]
          omega
        have hfalse : listingKeep regexMatch module_path max_depth pattern useRegex sig
            = false := by
          unfold listingKeep
          rw [e3, e4]
          simp
        rw [if_pos h2, ih _ hrest, hfalse]
        simp
      · have e2 : (decide (max_depth < (0:ℤ)) ||
            decide ((segCount sig.path : ℤ) - (segCount module_path : ℤ) ≤ max_depth)) = true := by
          rw [Bool.or_eq_true, decide_eq_true_eq, decide_eq_true_eq, key]
          omega
        rw [if_neg h2]
        by_cases h3 : pattern = "" ∨
            (if useRegex then regexMatch pattern sig.path ∨ regexMatch pattern sig.name
             else subOf pattern.data sig.path.data ∨ subOf pattern.data sig.name.data)
        · have htrue : listingKeep regexMatch module_path max_depth pattern useRegex sig
              = true := by
            unfold listingKeep
            rw [e1, e2, hq.mpr h3]
            rfl
          rw [if_neg (not_not_intro h3), ih _ hrest, htrue]
          simp
        · have hfalse : listingKeep regexMatch module_path max_depth pattern useRegex sig
              = false := by
            unfold listingKeep
            rw [e1, e2]
            exact Bool.eq_false_iff.mpr fun hc => h3 (hq.mp hc)
          rw [if_pos h3, ih _ hrest, hfalse]
          simp
/-- C1: on any signal table (with the data-model invariant that paths are
nonempty), the listing operation keeps exactly the signals passing the
module-path starts-with filter, the relative-depth filter (difference of
segment counts, enforced only when `max_depth` is non-negative) and the
pattern filter (path or name, per the selected mode, empty pattern
matching all); it returns the kept rows (handles stripped) in table
order, truncated to the first `limit` when `limit > 0`, together with the
pre-truncation match count. -/
theorem c1_get_signal_list_filter (regexMatch : String → String → Bool)
    (signals : List SigInfo) (module_path : String) (max_depth limit : ℤ)
    (pattern : String) (useRegex : Bool)
    (hpaths : ∀ sig ∈ signals, sig.path ≠ "") :
    get_signal_list regexMatch signals module_path max_depth limit pattern useRegex =
      (let matched := (signals.filter
          (listingKeep regexMatch module_path max_depth pattern useRegex)).map SigInfo.dropHandle
       ((if 0 < limit then matched.take limit.toNat else matched), matched.length)) := by
  simp only [get_signal_list,
    get_signal_list_loop regexMatch module_path max_depth pattern useRegex signals [] hpaths,
    List.nil_append]

/-- C1 witness: the listing on a concrete five-signal table under module
`top` with `max_depth = 1`, empty pattern and `limit = 2` returns the
first two direct children and a pre-truncation count of three. -/
theorem c1_get_signal_list_filter_witness :
    (∀ sig ∈ [⟨"clk", "wire", 1, "top.clk", 1⟩, ⟨"rst", "wire", 1, "top.rst", 2⟩,
        ⟨"counter", "wire", 8, "top.counter", 3⟩, ⟨"valid", "wire", 1, "top.cpu.valid", 4⟩,
        ⟨"top", "wire", 1, "top", 5⟩], SigInfo.path sig ≠ "") ∧
    get_signal_list (fun _ _ => false)
        [⟨"clk", "wire", 1, "top.clk", 1⟩, ⟨"rst", "wire", 1, "top.rst", 2⟩,
         ⟨"counter", "wire", 8, "top.counter", 3⟩, ⟨"valid", "wire", 1, "top.cpu.valid", 4⟩,
         ⟨"top", "wire", 1, "top", 5⟩] "top" 1 2 "" false =
      (let matched := (List.filter (listingKeep (fun _ _ => false) "top" 1 "" false)
          [⟨"clk", "wire", 1, "top.clk", 1⟩, ⟨"rst", "wire", 1, "top.rst", 2⟩,
           ⟨"counter", "wire", 8, "top.counter", 3⟩, ⟨"valid", "wire", 1, "top.cpu.valid", 4⟩,
           ⟨"top", "wire", 1, "top", 5⟩]).map SigInfo.dropHandle
       ((if 0 < (2:ℤ) then matched.take (2:ℤ).toNat else matched), matched.length)) :=
  ⟨by decide, c1_get_signal_list_filter (fun _ _ => false) _ "top" 1 2 "" false (by decide)⟩

/-! ### Session state (src/parsers/__init__.py) and the VCD load tool -/

/-- A VCD parser object as built by `WaveformParser.__init__` /
`get_signal_list` (vcd_parser.py lines 13-28): identified for the session
model by an id, carrying its signal table. -/
structure VcdParser where
  id : ℕ
  signals : List SigOut
deriving DecidableEq

/-- Process-wide session state (parsers/__init__.py lines 15-17): the
current parser of each kind, plus the set of FST parser ids whose
underlying container handle has been released by `FstParser.close`
(fst_parser.py lines 168-173).  FST parsers are identified by id. -/
structure Session where
  vcdCurrent : Option VcdParser
  fstCurrent : Option ℕ
  closed : List ℕ
deriving DecidableEq

/-- The Python function named set underscore vcd underscore parser
(parsers/__init__.py lines 28-31): a plain global assignment; nothing
else happens. -/
def setVcdParser (st : Session) (p : Option VcdParser) : Session :=
  { st with vcdCurrent := p }

/-- The Python function named set underscore fst underscore parser
(parsers/__init__.py lines 42-45): a plain global assignment; nothing
else happens. -/
def setFstParser (st : Session) (p : Option ℕ) : Session :=
  { st with fstCurrent := p }

/-- `FstParser.close` (fst_parser.py lines 168-173): releases the
underlying container handle (recorded here in `closed`). -/
def fstParserClose (st : Session) (p : ℕ) : Session :=
  { st with closed := p :: st.closed }

/-- The success path of `load_fst_file` (mcp_server.py lines 284-292):
construct the new parser and assign the global `_fst_parser`; the
previously current parser is not touched. -/
def load_fst_file_success (st : Session) (newId : ℕ) : Session :=
  { st with fstCurrent := some newId }

/-- C3 counterexample: with FST trace `0` current, making trace `1`
current through the session setter (or through a load) leaves trace `0`
unreleased — its handle is not closed before (or after) the replacement,
contradicting the claim that replacement closes the previous trace. -/
theorem c3_replace_does_not_close_counterexample :
    (setFstParser ⟨none, some 0, []⟩ (some 1)).fstCurrent = some 1 ∧
    ¬ 0 ∈ (setFstParser ⟨none, some 0, []⟩ (some 1)).closed ∧
    (load_fst_file_success ⟨none, some 0, []⟩ 1).fstCurrent = some 1 ∧
    ¬ 0 ∈ (load_fst_file_success ⟨none, some 0, []⟩ 1).closed := by
  decide

/-- C3 amended: replacing the current trace of either kind — via the
session setters or via the FST load — only swaps the current reference;
the previously current trace is never closed/released by the replacement
(the released-handle set is left unchanged; a handle is released only by
an explicit `FstParser.close`). -/
theorem c3_replace_swaps_without_closing (st : Session) (p : Option VcdParser)
    (q : Option ℕ) (newId : ℕ) :
    (setVcdParser st p).vcdCurrent = p ∧
    (setVcdParser st p).closed = st.closed ∧
    (setFstParser st q).fstCurrent = q ∧
    (setFstParser st q).closed = st.closed ∧
    (load_fst_file_success st newId).fstCurrent = some newId ∧
    (load_fst_file_success st newId).closed = st.closed := by
  refine ⟨rfl, rfl, rfl, rfl, rfl, rfl⟩

/-! ### The load_vcd_file tool (src/tools/vcd_tools.py lines 13-42) -/

/-- `WaveformParser.get_signal_list` declares no parameters besides
`self` (vcd_parser.py line 17); a call supplying `nargs` arguments raises
`TypeError` whenever `nargs > 0` (Python arity checking; the quotes of
the original message are elided). -/
def call_get_signal_list (p : VcdParser) (nargs : ℕ) : Except String (List SigOut) :=
  if nargs = 0 then .ok p.signals
  else .error "WaveformParser.get_signal_list() got an unexpected keyword argument limit"

/-- `load_vcd_file` (vcd_tools.py lines 13-42).  External effects are
parameters: whether the path exists, whether the size check passes, and
the outcome of the `WaveformParser` construction.  Inside the `try`
block the new parser is installed via `setVcdParser` above and then is
`parser.get_signal_list(limit=0)` called (one keyword argument); any
exception is caught and rendered as an error string, with no rollback of
the session.  The file-size error text is abbreviated. -/
def load_vcd_file (st : Session) (vcd_path : String) (fileExists sizeOk : Bool)
    (parseResult : Except String VcdParser) : Session × String :=
  if !fileExists then (st, "Error: File not found: " ++ vcd_path)
  else if !sizeOk then (st, "Error: File size exceeds limit")
  else
    match parseResult with
    | .error e => (st, "Error loading VCD file: " ++ e)
    | .ok parser =>
      let st1 := setVcdParser st (some parser)
      match call_get_signal_list parser 1 with
      | .error e => (st1, "Error loading VCD file: " ++ e)
      | .ok sigs =>
        (st1, "Successfully loaded VCD file: " ++ vcd_path ++ "\nFound " ++
          toString sigs.length ++ " signals.")

/-- C10: whenever the file exists, passes the size check and parses
successfully, `load_vcd_file` installs the new parser as the current VCD
trace, then the verification call `get_signal_list(limit=0)` raises
`TypeError` (the method accepts no arguments), so the tool reports
`Error loading VCD file` — while the session keeps the newly installed
parser: the reported failure does not roll back session state. -/
theorem c10_load_vcd_error_without_rollback (st : Session) (vcd_path : String)
    (parser : VcdParser) :
    (load_vcd_file st vcd_path true true (.ok parser)).1.vcdCurrent = some parser ∧
    (load_vcd_file st vcd_path true true (.ok parser)).2 =
      "Error loading VCD file: " ++
        "WaveformParser.get_signal_list() got an unexpected keyword argument limit" ∧
    (load_vcd_file st vcd_path true true (.ok parser)).1.fstCurrent = st.fstCurrent ∧
    (load_vcd_file st vcd_path true true (.ok parser)).1.closed = st.closed := by
  refine ⟨rfl, rfl, rfl, rfl⟩

/-! ### Time-ranged value extraction -/

/-- Pattern match used by the value queries (fst_parser.py lines 128-131,
vcd_parser.py lines 60-63): the signal path contains at least one of the
given patterns, case-insensitively. -/
def sigMatchesAny (signal_patterns : List String) (path : String) : Bool :=
  signal_patterns.any (fun pat => subOf (strLower pat).data (strLower path).data)

/-- `handle_to_path` as built in fst_parser.py lines 133-134: a dict from
handle to path over the matching rows, later assignments overwriting
earlier ones. -/
def fstHandleToPath (rows : List SigInfo) (h : ℕ) : Option String :=
  ((rows.filter (fun r => r.handle = h)).map SigInfo.path).getLast?

/-- Appending one `(time, value)` pair to the dict entry of `key`
(`raw_values[sig_path].append(...)`, fst_parser.py line 153). -/
def appendAt (l : List (String × List (ℤ × String))) (key : String) (v : ℤ × String) :
    List (String × List (ℤ × String)) :=
  l.map (fun kv => if kv.1 = key then (kv.1, kv.2 ++ [v]) else kv)

/-- The `value_change_callback` loop (fst_parser.py lines 149-156):
`fstReaderIterBlocks` delivers the container's event stream `(time,
handle, value)` in native block order; the callback keeps events whose
handle is in the requested set and whose time lies in the window, and
appends them to the per-path accumulator.  (The process mask set before
iteration only restricts which events the library delivers; since the
callback re-checks membership, feeding the full stream is equivalent.) -/
def fstCallbackFold (matchingHandles : List ℕ) (h2p : ℕ → Option String)
    (start_time end_time : ℤ) (raw : List (String × List (ℤ × String)))
    (events : List (ℤ × ℕ × String)) : List (String × List (ℤ × String)) :=
  events.foldl (fun raw ev =>
    if matchingHandles.contains ev.2.1 ∧ start_time ≤ ev.1 ∧ ev.1 ≤ end_time then
      match h2p ev.2.1 with
      | some path => appendAt raw path (ev.1, ev.2.2)
      | none => raw
    else raw) raw

/-- Formatting of one signal's collected raw values (fst_parser.py lines
159-164 / vcd_parser.py lines 69-74): each raw value goes through
`format_value`; a warning `path@time: message` is collected for each
value that fell back; a `ValueError` from `format_value` propagates. -/
def formatSig (fmt path : String) : List (ℤ × String) →
    Except String (List (ℤ × String) × List String)
  | [] => .ok ([], [])
  | (t, v) :: rest => do
    let fw ← format_value v fmt
    let rw ← formatSig fmt path rest
    .ok ((t, fw.1) :: rw.1,
      (match fw.2 with
       | some w => [path ++ "@" ++ toString t ++ ": " ++ w]
       | none => []) ++ rw.2)

/-- The formatting pass over the whole accumulator, in dict (insertion)
order. -/
def formatAll (fmt : String) : List (String × List (ℤ × String)) →
    Except String (List (String × List (ℤ × String)) × List String)
  | [] => .ok ([], [])
  | (path, tvs) :: rest => do
    let vw ← formatSig fmt path tvs
    let rw ← formatAll fmt rest
    .ok ((path, vw.1) :: rw.1, vw.2 ++ rw.2)

/-- `FstParser.get_signal_values` (fst_parser.py lines 99-166) over a
trace modelled by its signal table and its native-order event stream:
select the signals whose path contains any pattern case-insensitively,
pre-seed the result dict with an empty list per selected path, collect
the in-window events of the selected handles via the iteration callback,
then format every value and collect fallback warnings. -/
def fst_get_signal_values (signals : List SigInfo) (events : List (ℤ × ℕ × String))
    (signal_patterns : List String) (start_time end_time : ℤ) (fmt : String) :
    Except String (List (String × List (ℤ × String)) × List String) :=
  let matching := signals.filter (fun sig => sigMatchesAny signal_patterns sig.path)
  let skeleton := matching.map (fun sig => (sig.path, ([] : List (ℤ × String))))
  if matching.isEmpty then .ok (skeleton, [])
  else
    formatAll fmt
      (fstCallbackFold (matching.map SigInfo.handle) (fstHandleToPath matching)
        start_time end_time skeleton events)

/-- A VCD signal as exposed by vcdvcd (vcd_parser.py): its full dotted
name, declared var type, width and materialized `(time, value)` list. -/
structure VcdSig where
  name : String
  varType : String
  size : ℕ
  tv : List (ℤ × String)
deriving DecidableEq

/-- `WaveformParser.get_signal_values` (vcd_parser.py lines 34-78): per
matching signal, filter its materialized `(time, value)` list to the
window and format; a signal whose filtered list is empty is omitted from
the result (`if values:` on line 75). -/
def vcd_get_signal_values (sigs : List VcdSig) (signal_patterns : List String)
    (start_time end_time : ℤ) (fmt : String) :
    Except String (List (String × List (ℤ × String)) × List String) :=
  match sigs with
  | [] => .ok ([], [])
  | sig :: rest =>
    if sigMatchesAny signal_patterns sig.name then do
      let vw ← formatSig fmt sig.name
        (sig.tv.filter (fun tv => decide (start_time ≤ tv.1) && decide (tv.1 ≤ end_time)))
      let rw ← vcd_get_signal_values rest signal_patterns start_time end_time fmt
      .ok ((if vw.1.isEmpty then [] else [(sig.name, vw.1)]) ++ rw.1, vw.2 ++ rw.2)
    else vcd_get_signal_values rest signal_patterns start_time end_time fmt

/-! ### Characterizing the value-extraction pipeline -/

/-- A format selector the code accepts. -/
def validFmt (fmt : String) : Prop :=
  strLower fmt = "bin" ∨ strLower fmt = "hex" ∨ strLower fmt = "dec"

instance validFmtDec (fmt : String) : Decidable (validFmt fmt) :=
  inferInstanceAs (Decidable (strLower fmt = "bin" ∨ strLower fmt = "hex" ∨ strLower fmt = "dec"))

instance exceptDecEq {α β : Type} [DecidableEq α] [DecidableEq β] : DecidableEq (Except α β) :=
  fun x y =>
  match x, y with
  | .ok a, .ok b =>
    if h : a = b then isTrue (h ▸ rfl) else isFalse fun hc => h (Except.ok.inj hc)
  | .error a, .error b =>
    if h : a = b then isTrue (h ▸ rfl) else isFalse fun hc => h (Except.error.inj hc)
  | .ok _, .error _ => isFalse fun hc => Except.noConfusion hc
  | .error _, .ok _ => isFalse fun hc => Except.noConfusion hc

/-- Rendered-value projection of `format_value` (total helper; meaningful
for valid selectors, where `format_value` always succeeds). -/
def fv1 (v fmt : String) : String :=
  match format_value v fmt with
  | .ok p => p.1
  | .error _ => ""

/-- Warning projection of `format_value` (total helper). -/
def fvW (v fmt : String) : Option String :=
  match format_value v fmt with
  | .ok p => p.2
  | .error _ => none

theorem format_value_exists_ok (v fmt : String) (h : validFmt fmt) :
    ∃ p, format_value v fmt = .ok p := by
  have hne : ¬ (strLower fmt ≠ "bin" ∧ strLower fmt ≠ "hex" ∧ strLower fmt ≠ "dec") := by
    rcases h with h | h | h <;> simp [h]
  unfold format_value
  rw [if_neg hne]
  by_cases h1 : strLower fmt = "bin"
  · rw [if_pos h1]; exact ⟨_, rfl⟩
  · rw [if_neg h1]
    by_cases h2 : contains_unknown v = true
    · rw [if_pos h2]; exact ⟨_, rfl⟩
    · rw [if_neg h2]
      cases hpy : pyIntBase2 v with
      | none => exact ⟨_, rfl⟩
      | some n =>
        show ∃ p, (if strLower fmt = "hex"
            then Except.ok (("0x" ++ String.mk (natHex n) : String), (none : Option String))
            else Except.ok (Nat.repr n, none)) = Except.ok p
        by_cases h3 : strLower fmt = "hex"
        · rw [if_pos h3]; exact ⟨_, rfl⟩
        · rw [if_neg h3]; exact ⟨_, rfl⟩

theorem format_value_eq_ok (v fmt : String) (h : validFmt fmt) :
    format_value v fmt = .ok (fv1 v fmt, fvW v fmt) := by
  obtain ⟨p, hp⟩ := format_value_exists_ok v fmt h
  rw [hp]
  unfold fv1 fvW
  rw [hp]

theorem fstHandleToPath_eq (rows : List SigInfo) (sig0 : SigInfo)
    (hn : (rows.map SigInfo.handle).Nodup) (hm : sig0 ∈ rows) :
    fstHandleToPath rows sig0.handle = some sig0.path := by
  induction rows with
  | nil => cases hm
  | cons r rest ih =>
    rw [List.map_cons, List.nodup_cons] at hn
    rcases List.mem_cons.mp hm with rfl | hm2
    · have hrest : rest.filter (fun rr => rr.handle = sig0.handle) = [] := by
        rw [List.filter_eq_nil_iff]
        intro a ha hc
        exact hn.1 (by
          simp only [decide_eq_true_eq] at hc
          rw [← hc]
          exact List.mem_map.mpr ⟨a, ha, rfl⟩)
      unfold fstHandleToPath
      rw [List.filter_cons, if_pos (by simp), hrest]
      rfl
    · have hne : r.handle ≠ sig0.handle := fun hc =>
        hn.1 (hc ▸ List.mem_map.mpr ⟨sig0, hm2, rfl⟩)
      unfold fstHandleToPath at ih ⊢
      rw [List.filter_cons, if_neg (by simp [hne])]
      exact ih hn.2 hm2

/-- The events of `events` selected for signal `sig`: those carrying its
handle whose time lies in the window. -/
def selectedEvents (events : List (ℤ × ℕ × String)) (start_time end_time : ℤ)
    (sig : SigInfo) : List (ℤ × ℕ × String) :=
  events.filter (fun ev =>
    decide (ev.2.1 = sig.handle) && decide (start_time ≤ ev.1) && decide (ev.1 ≤ end_time))

theorem fstCallbackFold_eq (matching : List SigInfo) (s e : ℤ)
    (hh : (matching.map SigInfo.handle).Nodup)
    (hp : (matching.map SigInfo.path).Nodup)
    (events : List (ℤ × ℕ × String)) (f : SigInfo → List (ℤ × String)) :
    fstCallbackFold (matching.map SigInfo.handle) (fstHandleToPath matching) s e
        (matching.map (fun sig => (sig.path, f sig))) events =
      matching.map (fun sig => (sig.path,
        f sig ++ (selectedEvents events s e sig).map (fun ev => (ev.1, ev.2.2)))) := by
  induction events generalizing f with
  | nil => simp [fstCallbackFold, selectedEvents]
  | cons ev evs ih =>
    unfold fstCallbackFold at ih ⊢
    rw [List.foldl_cons]
    by_cases hin : (matching.map SigInfo.handle).contains ev.2.1 = true ∧
        s ≤ ev.1 ∧ ev.1 ≤ e
    · rw [if_pos hin]
      obtain ⟨sig0, hsig0, hh0⟩ : ∃ sig0 ∈ matching, sig0.handle = ev.2.1 := by
        have : ev.2.1 ∈ matching.map SigInfo.handle := by simpa using hin.1
        obtain ⟨sig0, hs, he⟩ := List.mem_map.mp this
        exact ⟨sig0, hs, he⟩
      rw [← hh0, fstHandleToPath_eq matching sig0 hh hsig0]
      dsimp only
      have happ : appendAt (matching.map (fun sig => (sig.path, f sig))) sig0.path
          (ev.1, ev.2.2) =
          matching.map (fun sig => (sig.path,
            f sig ++ (if sig.path = sig0.path then [(ev.1, ev.2.2)] else []))) := by
        unfold appendAt
        rw [List.map_map]
        apply List.map_congr_left
        intro sig _
        by_cases hps : sig.path = sig0.path
        · simp [Function.comp, hps]
        · simp [Function.comp, hps]
      rw [happ, ih (fun sig => f sig ++ (if sig.path = sig0.path then [(ev.1, ev.2.2)] else []))]
      apply List.map_congr_left
      intro sig hsig
      unfold selectedEvents
      simp only [List.filter_cons]
      by_cases hsh : ev.2.1 = sig.handle
      · have hseq : sig = sig0 :=
          List.inj_on_of_nodup_map hh hsig hsig0 (by rw [hh0]; exact hsh.symm)
        subst hseq
        have hc : (decide (ev.2.1 = sig.handle) && decide (s ≤ ev.1) && decide (ev.1 ≤ e))
            = true := by
          simp [hsh, hin.2.1, hin.2.2]
        rw [if_pos hc]
        simp
      · have hpne : ¬ sig.path = sig0.path := fun hc => by
          have h2 : sig = sig0 := List.inj_on_of_nodup_map hp hsig hsig0 hc
          exact hsh (by rw [h2, hh0])
        have hc : ¬ ((decide (ev.2.1 = sig.handle) && decide (s ≤ ev.1) && decide (ev.1 ≤ e))
            = true) := by
          simp [hsh]
        rw [if_neg hc]
        simp [hpne]
    · rw [if_neg hin, ih f]
      apply List.map_congr_left
      intro sig hsig
      unfold selectedEvents
      simp only [List.filter_cons]
      have hc : ¬ ((decide (ev.2.1 = sig.handle) && decide (s ≤ ev.1) && decide (ev.1 ≤ e))
          = true) := by
        intro hcon
        simp only [Bool.and_eq_true, decide_eq_true_eq] at hcon
        exact hin ⟨by simpa using List.mem_map.mpr ⟨sig, hsig, hcon.1.1.symm⟩,
          hcon.1.2, hcon.2⟩
      rw [if_neg hc]

theorem formatSig_eq (fmt : String) (h : validFmt fmt) (path : String)
    (tvs : List (ℤ × String)) :
    formatSig fmt path tvs = .ok (tvs.map (fun tv => (tv.1, fv1 tv.2 fmt)),
      tvs.filterMap (fun tv =>
        (fvW tv.2 fmt).map (fun w => path ++ "@" ++ toString tv.1 ++ ": " ++ w))) := by
  induction tvs with
  | nil => rfl
  | cons tv rest ih =>
    obtain ⟨t, v⟩ := tv
    rw [formatSig, format_value_eq_ok v fmt h, ih]
    simp only [List.map_cons, List.filterMap_cons]
    cases hw : fvW v fmt with
    | none => rfl
    | some w => rfl

theorem formatAll_eq (fmt : String) (h : validFmt fmt)
    (l : List (String × List (ℤ × String))) :
    formatAll fmt l = .ok
      (l.map (fun pl => (pl.1, pl.2.map (fun tv => (tv.1, fv1 tv.2 fmt)))),
       l.flatMap (fun pl => pl.2.filterMap (fun tv =>
         (fvW tv.2 fmt).map (fun w => pl.1 ++ "@" ++ toString tv.1 ++ ": " ++ w)))) := by
  induction l with
  | nil => rfl
  | cons pl rest ih =>
    obtain ⟨path, tvs⟩ := pl
    rw [formatAll, formatSig_eq fmt h path tvs, ih]
    simp only [List.map_cons, List.flatMap_cons]
    rfl

/-- C4: on any trace (with the data-model invariants that handles and
paths are distinct) and any valid format selector and window with
`start_time ≤ end_time`, the FST value extraction selects exactly the
signals whose path contains some pattern case-insensitively (in table
order), emits per selected signal exactly the in-window changes of its
handle formatted through `format_value`, groups them by signal path, and
collects one warning per value that fell back to binary; when the
container delivers events in non-decreasing time order, each signal's
list is in non-decreasing time order. -/
theorem c4_get_signal_values_window_grouping
    (signals : List SigInfo) (events : List (ℤ × ℕ × String))
    (signal_patterns : List String) (start_time end_time : ℤ) (fmt : String)
    (hfmt : validFmt fmt) (hse : start_time ≤ end_time)
    (hh : (signals.map SigInfo.handle).Nodup)
    (hp : (signals.map SigInfo.path).Nodup) :
    fst_get_signal_values signals events signal_patterns start_time end_time fmt = .ok
      ((signals.filter (fun sig => sigMatchesAny signal_patterns sig.path)).map (fun sig =>
          (sig.path, (selectedEvents events start_time end_time sig).map
            (fun ev => (ev.1, fv1 ev.2.2 fmt)))),
       (signals.filter (fun sig => sigMatchesAny signal_patterns sig.path)).flatMap (fun sig =>
          (selectedEvents events start_time end_time sig).filterMap (fun ev =>
            (fvW ev.2.2 fmt).map (fun w => sig.path ++ "@" ++ toString ev.1 ++ ": " ++ w)))) ∧
    (events.Pairwise (fun a b => a.1 ≤ b.1) →
      ∀ pr ∈ (signals.filter (fun sig => sigMatchesAny signal_patterns sig.path)).map
          (fun sig => (sig.path, (selectedEvents events start_time end_time sig).map
            (fun ev => (ev.1, fv1 ev.2.2 fmt)))),
        pr.2.Pairwise (fun a b : ℤ × String => a.1 ≤ b.1)) := by
  have hh2 : ((signals.filter (fun sig => sigMatchesAny signal_patterns sig.path)).map
      SigInfo.handle).Nodup :=
    ((List.filter_sublist signals).map SigInfo.handle).nodup hh
  have hp2 : ((signals.filter (fun sig => sigMatchesAny signal_patterns sig.path)).map
      SigInfo.path).Nodup :=
    ((List.filter_sublist signals).map SigInfo.path).nodup hp
  constructor
  · by_cases hm : (signals.filter (fun sig => sigMatchesAny signal_patterns sig.path)) = []
    · simp [fst_get_signal_values, hm]
    · have hfold := fstCallbackFold_eq
        (signals.filter (fun sig => sigMatchesAny signal_patterns sig.path))
        start_time end_time hh2 hp2 events (fun _ => [])
      simp only [List.nil_append] at hfold
      simp only [fst_get_signal_values, List.isEmpty_iff, hm, if_false, hfold,
        formatAll_eq fmt hfmt]
      simp [List.map_map, Function.comp, List.filterMap_map, List.flatMap_map]
      rfl
  · intro hsort pr hpr
    obtain ⟨sig, _, rfl⟩ := List.mem_map.mp hpr
    refine List.pairwise_map.mpr ?_
    exact List.Pairwise.sublist (List.filter_sublist events) hsort

/-- C4 witness: on the trace with signals `top.clk`, `top.rst`,
`top.counter`, querying with pattern `["clk"]` over the full range yields
changes for `top.clk` only, in non-decreasing time order. -/
theorem c4_get_signal_values_window_grouping_witness :
    validFmt "bin" ∧
    fst_get_signal_values
        [⟨"clk", "wire", 1, "top.clk", 1⟩, ⟨"rst", "wire", 1, "top.rst", 2⟩,
         ⟨"counter", "wire", 8, "top.counter", 3⟩]
        [(0, 1, "0"), (0, 2, "1"), (3, 3, "101"), (5, 1, "1"), (7, 3, "110")]
        ["clk"] 0 1000 "bin" =
      .ok ([("top.clk", [(0, "b0"), (5, "b1")])], []) := by
  refine ⟨by decide, ?_⟩
  have h := (c4_get_signal_values_window_grouping
      [⟨"clk", "wire", 1, "top.clk", 1⟩, ⟨"rst", "wire", 1, "top.rst", 2⟩,
       ⟨"counter", "wire", 8, "top.counter", 3⟩]
      [(0, 1, "0"), (0, 2, "1"), (3, 3, "101"), (5, 1, "1"), (7, 3, "110")]
      ["clk"] 0 1000 "bin" (by decide) (by decide) (by decide) (by decide)).1
  rw [h]
  decide

/-- C2 divergence witness (the VCD container does not expose the FST
container's contract): `WaveformParser.get_signal_list` rejects the
`limit` argument its own callers pass, and a pattern-matched signal with
no value changes inside the window is kept (with an empty list) by the
FST value query but dropped by the VCD value query. -/
theorem c2_contract_divergence :
    call_get_signal_list ⟨0, []⟩ 1 =
      .error "WaveformParser.get_signal_list() got an unexpected keyword argument limit" ∧
    fst_get_signal_values [⟨"clk", "wire", 1, "top.clk", 1⟩] [(100, 1, "1")]
        ["clk"] 0 50 "bin" = .ok ([("top.clk", [])], []) ∧
    vcd_get_signal_values [⟨"top.clk", "wire", 1, [(100, "1")]⟩]
        ["clk"] 0 50 "bin" = .ok ([], []) := by
  refine ⟨rfl, by decide, by decide⟩

/-! ### The value-query tools and their start/end validation guard -/

/-- The validation reply of both value-query tools (vcd_tools.py line 137,
mcp_server.py line 346). -/
def timeWindowErrMsg : String := "Error: start_time must be less than or equal to end_time"

/-- Python `f"{s:>10}"`: right-align to width 10. -/
def padLeftTo (w : ℕ) (s : String) : String :=
  ⟨List.replicate (w - s.data.length) ' ' ++ s.data⟩

/-- Python `"\n".join(lines)`. -/
def joinLines : List String → String
  | [] => ""
  | l :: rest => rest.foldl (fun a b => a ++ "\n" ++ b) l

/-- The warnings block of `get_vcd_signal_values` (vcd_tools.py lines
149-156): at most ten warnings are echoed. -/
def warnBlock (warnings : List String) : List String :=
  if warnings.isEmpty then []
  else ["\nWarnings:"] ++ (warnings.take 10).map (fun w => "  " ++ w) ++
    (if 10 < warnings.length then
      ["  ... and " ++ toString (warnings.length - 10) ++ " more warnings"] else []) ++ [""]

/-- One signal's block of `get_vcd_signal_values` (vcd_tools.py lines
158-167), with the per-signal display limit (`limit = 0` meaning all;
negative limits, which Python would treat as end-relative slices, are not
exercised). -/
def signalBlock (limit : ℤ) (sv : String × List (ℤ × String)) : List String :=
  ["\n" ++ sv.1 ++ ":"] ++
  (if sv.2.isEmpty then ["  (no changes in this range)"]
   else (if limit = 0 then sv.2 else sv.2.take limit.toNat).map
       (fun tv => "  " ++ padLeftTo 10 (toString tv.1) ++ ": " ++ tv.2) ++
     (if 0 < limit ∧ limit < (sv.2.length : ℤ) then
        ["  ... (" ++ toString ((sv.2.length : ℤ) - limit) ++
          " more entries, use limit=0 to show all)"]
      else []))

/-- The success rendering of the VCD value-query tool. -/
def renderVcdValues (start_time end_time : ℤ) (values : List (String × List (ℤ × String)))
    (warnings : List String) (limit : ℤ) : String :=
  joinLines (["Signal values in time range [" ++ toString start_time ++ ", " ++
      toString end_time ++ "]:"] ++ warnBlock warnings ++ values.flatMap (signalBlock limit))

/-- One signal's block of the FST tool's rendering (mcp_server.py lines
357-363; no display limit). -/
def signalBlockNoLimit (sv : String × List (ℤ × String)) : List String :=
  ["\n" ++ sv.1 ++ ":"] ++
  (if sv.2.isEmpty then ["  (no changes in this range)"]
   else sv.2.map (fun tv => "  " ++ padLeftTo 10 (toString tv.1) ++ ": " ++ tv.2))

/-- The success rendering of the FST value-query tool. -/
def renderFstValues (start_time end_time : ℤ)
    (values : List (String × List (ℤ × String))) : String :=
  joinLines (["Signal values in time range [" ++ toString start_time ++ ", " ++
      toString end_time ++ "]:"] ++ values.flatMap signalBlockNoLimit)

/-- The no-matches reply of the value-query tools (vcd_tools.py lines
142-145 / mcp_server.py lines 350-354); `what` is `signal names` for the
VCD tool and `patterns` for the FST one.  (The Python f-string renders
the pattern list with `repr` quoting; the model renders it with Lean's
list notation — the difference is irrelevant to the claims, which only
compare reply kinds.) -/
def noMatchesMsg (what : String) (start_time end_time : ℤ) (names : List String) : String :=
  "No matching signals found or no values in time range [" ++ toString start_time ++
    ", " ++ toString end_time ++ "] for " ++ what ++ ": " ++ toString names

/-- `get_vcd_signal_values` (vcd_tools.py lines 108-169), with the
underlying parser abstracted: `parser` is `none` when no VCD trace is
loaded, otherwise it carries the parser's query function.  The window
guard fires before the parser is consulted; there is no clamping. -/
def get_vcd_signal_values_tool
    (parser : Option (List String → ℤ → ℤ → String →
      List (String × List (ℤ × String)) × List String))
    (signal_names : List String) (start_time end_time : ℤ) (fmt : String)
    (limit : ℤ) : String :=
  match parser with
  | none => "No VCD file loaded. Use load_vcd first."
  | some query =>
    if end_time < start_time then timeWindowErrMsg
    else
      let vw := query signal_names start_time end_time fmt
      if vw.1.isEmpty then noMatchesMsg "signal names" start_time end_time signal_names
      else renderVcdValues start_time end_time vw.1 vw.2 limit

/-- `get_fst_signal_values` (mcp_server.py lines 329-365), with the
underlying parser abstracted as for the VCD tool (this variant takes no
format or limit argument). -/
def get_fst_signal_values_tool
    (parser : Option (List String → ℤ → ℤ → List (String × List (ℤ × String))))
    (signal_patterns : List String) (start_time end_time : ℤ) : String :=
  match parser with
  | none => "No FST file loaded. Use load_fst_file first."
  | some query =>
    if end_time < start_time then timeWindowErrMsg
    else
      let values := query signal_patterns start_time end_time
      if values.isEmpty then noMatchesMsg "patterns" start_time end_time signal_patterns
      else renderFstValues start_time end_time values

theorem joinLines_data (l : String) (rest : List String) :
    ∃ t, (joinLines (l :: rest)).data = l.data ++ t := by
  suffices h : ∀ (rest : List String) (a : String),
      ∃ t, (rest.foldl (fun a b => a ++ "\n" ++ b) a).data = a.data ++ t from h rest l
  intro rest
  induction rest with
  | nil => exact fun a => ⟨[], by simp⟩
  | cons b bs ih =>
    intro a
    obtain ⟨t, ht⟩ := ih (a ++ "\n" ++ b)
    refine ⟨"\n".data ++ b.data ++ t, ?_⟩
    rw [List.foldl_cons, ht, string_append_data, string_append_data]
    simp

theorem joinLines_head (l : String) (rest : List String) (c : Char) (cs : List Char)
    (h : l.data = c :: cs) : (joinLines (l :: rest)).data.head? = some c := by
  obtain ⟨t, ht⟩ := joinLines_data l rest
  rw [ht, h]
  rfl

/-- C6: with a trace loaded, a value query whose `start_time` exceeds its
`end_time` returns exactly the fixed validation-error reply on both the
VCD and the FST tool, without consulting the trace (the reply does not
depend on the query function, so no clamped query happens), and that
reply is distinguishable from the no-matches reply and from every
successful rendering. -/
theorem c6_window_validation_guard
    (vq : List String → ℤ → ℤ → String → List (String × List (ℤ × String)) × List String)
    (fq : List String → ℤ → ℤ → List (String × List (ℤ × String)))
    (signal_names : List String) (start_time end_time : ℤ) (fmt : String) (limit : ℤ)
    (h : end_time < start_time) :
    get_vcd_signal_values_tool (some vq) signal_names start_time end_time fmt limit =
      timeWindowErrMsg ∧
    get_fst_signal_values_tool (some fq) signal_names start_time end_time =
      timeWindowErrMsg ∧
    (∀ what s2 e2 ns, noMatchesMsg what s2 e2 ns ≠ timeWindowErrMsg) ∧
    (∀ s2 e2 values warnings lim, renderVcdValues s2 e2 values warnings lim ≠ timeWindowErrMsg) ∧
    (∀ s2 e2 values, renderFstValues s2 e2 values ≠ timeWindowErrMsg) := by
  refine ⟨by simp [get_vcd_signal_values_tool, h], by simp [get_fst_signal_values_tool, h],
    ?_, ?_, ?_⟩
  · intro what s2 e2 ns hc
    have h1 : (noMatchesMsg what s2 e2 ns).data.head? = some 'N' := rfl
    have h2 : timeWindowErrMsg.data.head? = some 'E' := rfl
    rw [hc, h2] at h1
    simp at h1
  · intro s2 e2 values warnings lim hc
    have h1 : (renderVcdValues s2 e2 values warnings lim).data.head? = some 'S' := by
      unfold renderVcdValues
      exact joinLines_head _ _ 'S' _ rfl
    have h2 : timeWindowErrMsg.data.head? = some 'E' := rfl
    rw [hc, h2] at h1
    simp at h1
  · intro s2 e2 values hc
    have h1 : (renderFstValues s2 e2 values).data.head? = some 'S' := by
      unfold renderFstValues
      exact joinLines_head _ _ 'S' _ rfl
    have h2 : timeWindowErrMsg.data.head? = some 'E' := rfl
    rw [hc, h2] at h1
    simp at h1

/-- C6 witness: concrete reversed window `[5, 3]`. -/
theorem c6_window_validation_guard_witness :
    (3 : ℤ) < 5 ∧
    get_vcd_signal_values_tool (some (fun _ _ _ _ => ([], []))) ["clk"] 5 3 "bin" 100 =
      timeWindowErrMsg ∧
    get_fst_signal_values_tool (some (fun _ _ _ => [])) ["clk"] 5 3 =
      timeWindowErrMsg :=
  ⟨by decide,
    (c6_window_validation_guard (fun _ _ _ _ => ([], [])) (fun _ _ _ => [])
      ["clk"] 5 3 "bin" 100 (by decide)).1,
    (c6_window_validation_guard (fun _ _ _ _ => ([], [])) (fun _ _ _ => [])
      ["clk"] 5 3 "bin" 100 (by decide)).2.1⟩

/-! ### src/utils/float_convert.py — the float codec

Python floats are IEEE binary64 values; every finite one is an exact
rational, so a finite float is modelled as a sign bit plus a non-negative
rational magnitude (the sign kept separately so that negative zero is
representable), alongside infinities and NaN.  `struct.pack`/`unpack`
for the `f`/`e` formats (external stdlib collaborators) are modelled by
their documented IEEE-754 semantics: round to nearest, ties to even,
`OverflowError` when the rounded magnitude exceeds the format's largest
finite value, gradual underflow to signed zero. -/

inductive F754 where
  | finite (sign : Bool) (mag : ℚ)
  | inf (sign : Bool)
  | nan
deriving DecidableEq

/-- Fuel-driven binary logarithm (kernel-evaluable). -/
def log2fuel : ℕ → ℕ → ℕ
  | 0, _ => 0
  | f + 1, n => if n < 2 then 0 else log2fuel f (n / 2) + 1

/-- `⌊log₂ n⌋` for positive `n` (0 at 0). -/
def nlog2 (n : ℕ) : ℕ := log2fuel n n

/-- `2 ^ d` in `ℚ` for an integer exponent. -/
def qpow2 : ℤ → ℚ
  | .ofNat n => (2 : ℚ) ^ n
  | .negSucc n => ((2 : ℚ) ^ (n + 1))⁻¹

/-- `⌊log₂ q⌋` for a positive rational. -/
def floorLog2 (q : ℚ) : ℤ :=
  let d : ℤ := (nlog2 q.num.toNat : ℤ) - (nlog2 q.den : ℤ)
  if q < qpow2 d then d - 1 else if q < qpow2 (d + 1) then d else d + 1

/-- Round to nearest integer, ties to even. -/
def rhe (q : ℚ) : ℤ :=
  if q - ⌊q⌋ < 1 / 2 then ⌊q⌋
  else if (1 : ℚ) / 2 < q - ⌊q⌋ then ⌊q⌋ + 1
  else if ⌊q⌋ % 2 = 0 then ⌊q⌋ else ⌊q⌋ + 1

/-- An IEEE-754 binary interchange format: explicit mantissa bits,
exponent field bits and exponent bias. -/
structure FloatFmt where
  mant : ℕ
  ebits : ℕ
  bias : ℤ
deriving DecidableEq

/-- binary32 (`struct` format `f`). -/
def fmt32 : FloatFmt := ⟨23, 8, 127⟩

/-- binary16 (`struct` format `e`). -/
def fmt16 : FloatFmt := ⟨10, 5, 15⟩

/-- Smallest normal exponent. -/
def FloatFmt.emin (f : FloatFmt) : ℤ := 1 - f.bias

/-- Largest normal exponent. -/
def FloatFmt.emax (f : FloatFmt) : ℤ := (2 ^ f.ebits - 2 : ℤ) - f.bias

/-- Largest finite value of the format. -/
def FloatFmt.maxFinite (f : FloatFmt) : ℚ :=
  ((2 ^ (f.mant + 1) - 1 : ℕ) : ℚ) * qpow2 (f.emax - f.mant)

/-- Encode a value into the bits of format `f`: IEEE-754 round to
nearest, ties to even, with `OverflowError` (modelled as `.error`) when
the rounded magnitude exceeds the largest finite value, and gradual
underflow to signed zero — the semantics of CPython's float packing for
the `f` and `e` struct formats.  Infinities encode to the reserved
exponent; NaN encodes to a quiet NaN (CPython copies the NaN payload;
no claim encodes a NaN). -/
def packBits (f : FloatFmt) : F754 → Except String ℕ
  | .nan => .ok ((2 ^ f.ebits - 1) * 2 ^ f.mant + 2 ^ (f.mant - 1))
  | .inf s => .ok ((if s then 2 ^ (f.mant + f.ebits) else 0) + (2 ^ f.ebits - 1) * 2 ^ f.mant)
  | .finite s mag =>
    let a := |mag|
    if a = 0 then .ok (if s then 2 ^ (f.mant + f.ebits) else 0)
    else
      let eeff : ℤ := max (floorLog2 a) f.emin
      let m : ℤ := rhe (a * qpow2 ((f.mant : ℤ) - eeff))
      if f.maxFinite < (m : ℚ) * qpow2 (eeff - (f.mant : ℤ)) then
        .error "float too large to pack"
      else
        let em : ℤ × ℤ := if m = 2 ^ (f.mant + 1) then (eeff + 1, (2 ^ f.mant : ℤ)) else (eeff, m)
        if em.2 < 2 ^ f.mant then
          .ok ((if s then 2 ^ (f.mant + f.ebits) else 0) + em.2.toNat)
        else
          .ok ((if s then 2 ^ (f.mant + f.ebits) else 0) +
            (em.1 - f.emin + 1).toNat * 2 ^ f.mant + (em.2 - 2 ^ f.mant).toNat)

/-- Decode bits of format `f` into a value — the semantics of
`struct.unpack` for the `f`/`e` formats. -/
def decodeBits (f : FloatFmt) (bits : ℕ) : F754 :=
  let M := bits % 2 ^ f.mant
  let E := bits / 2 ^ f.mant % 2 ^ f.ebits
  let s : Bool := decide (bits / 2 ^ (f.mant + f.ebits) % 2 = 1)
  if E = 2 ^ f.ebits - 1 then (if M = 0 then .inf s else .nan)
  else if E = 0 then .finite s ((M : ℚ) * qpow2 (f.emin - f.mant))
  else .finite s (((2 ^ f.mant + M : ℕ) : ℚ) * qpow2 ((E : ℤ) - f.bias - f.mant))

/-- Hex digit characters accepted by `bytes.fromhex` (both cases). -/
def isHexDigit (c : Char) : Bool := "0123456789ABCDEFabcdef".data.contains c

/-- Value of a hex digit character. -/
def hexDigitVal (c : Char) : ℕ :=
  if c.toNat ≤ 57 then c.toNat - 48
  else if c.toNat ≤ 70 then c.toNat - 55
  else c.toNat - 87

/-- Big-endian value of a hex digit string. -/
def hexValL (l : List Char) : ℕ := l.foldl (fun a c => 16 * a + hexDigitVal c) 0

/-- Model of `bytes.fromhex` followed by reading the resulting bytes
big-endian: spaces are skipped (as `fromhex` does), the remaining
characters must be hex digits and even in number; returns (byte count,
value). -/
def bytesFromHex (s : String) : Except String (ℕ × ℕ) :=
  let ds := s.data.filter (fun c => ¬ c = ' ')
  if ds.all isHexDigit ∧ ds.length % 2 = 0 then .ok (ds.length / 2, hexValL ds)
  else .error "non-hexadecimal number found in fromhex() arg"

/-- The check `hex_value.lower().startswith("0x")` (float_convert.py line
26), expressed character-wise: `lower(c) = '0'` iff `c = '0'`, and
`lower(c) = 'x'` iff `c` is `x` or `X`. -/
def startsWith0x : List Char → Bool
  | c1 :: c2 :: _ => c1 = '0' && (c2 = 'x' || c2 = 'X')
  | _ => false

/-- The check `bin_value.lower().startswith("0b")` (float_convert.py line
34), character-wise. -/
def startsWith0b : List Char → Bool
  | c1 :: c2 :: _ => c1 = '0' && (c2 = 'b' || c2 = 'B')
  | _ => false

/-- The check `bin_value.lower().startswith("b")`, character-wise. -/
def startsWithB : List Char → Bool
  | c :: _ => c = 'b' || c = 'B'
  | [] => false

/-- `_normalize_hex` (float_convert.py lines 23-28): strip surrounding
whitespace, drop a case-insensitive `0x` marker, uppercase. -/
def _normalize_hex (s : String) : String :=
  strUpper (if startsWith0x (pyStrip s).data then ⟨(pyStrip s).data.drop 2⟩ else pyStrip s)

/-- `_normalize_bin` (float_convert.py lines 31-39): strip surrounding
whitespace, drop a case-insensitive `0b` or `b` marker. -/
def _normalize_bin (s : String) : String :=
  if startsWith0b (pyStrip s).data then ⟨(pyStrip s).data.drop 2⟩
  else if startsWithB (pyStrip s).data then ⟨(pyStrip s).data.drop 1⟩
  else pyStrip s

/-- `_validate_float_type` (float_convert.py lines 14-20). -/
def _validate_float_type (t : String) : Except String Unit :=
  if t = "float32" ∨ t = "float16" ∨ t = "bfloat16" then .ok ()
  else .error ("Invalid float_type " ++ t ++ ". Must be one of: float32, float16, bfloat16")

/-- `hex_to_float_value` (float_convert.py lines 42-77): validate the
kind, normalize, left-zero-pad to the kind's width, decode via
`bytes.fromhex` + `struct.unpack` (bfloat16 appends sixteen zero bits
and decodes as binary32); a byte count other than the format's is an
unpack error. -/
def hex_to_float_value (hex_value : String) (float_type : String) : Except String F754 :=
  match _validate_float_type float_type with
  | .error e => .error e
  | .ok _ =>
    if float_type = "float32" then
      match bytesFromHex (zfill 8 (_normalize_hex hex_value)) with
      | .error e => .error e
      | .ok bv =>
        if bv.1 = 4 then .ok (decodeBits fmt32 bv.2)
        else .error "unpack requires a buffer of 4 bytes"
    else if float_type = "float16" then
      match bytesFromHex (zfill 4 (_normalize_hex hex_value)) with
      | .error e => .error e
      | .ok bv =>
        if bv.1 = 2 then .ok (decodeBits fmt16 bv.2)
        else .error "unpack requires a buffer of 2 bytes"
    else
      match bytesFromHex (zfill 4 (_normalize_hex hex_value) ++ "0000") with
      | .error e => .error e
      | .ok bv =>
        if bv.1 = 4 then .ok (decodeBits fmt32 bv.2)
        else .error "unpack requires a buffer of 4 bytes"

/-- `float_to_hex_value` (float_convert.py lines 80-108): pack per the
kind (bfloat16 packs as binary32 and keeps the upper sixteen bits) and
render as `0x`-prefixed uppercase hex of the byte width. -/
def float_to_hex_value (float_value : F754) (float_type : String) : Except String String :=
  match _validate_float_type float_type with
  | .error e => .error e
  | .ok _ =>
    if float_type = "float32" then
      match packBits fmt32 float_value with
      | .error e => .error e
      | .ok bits => .ok ("0x" ++ String.mk (natHexPad 8 bits))
    else if float_type = "float16" then
      match packBits fmt16 float_value with
      | .error e => .error e
      | .ok bits => .ok ("0x" ++ String.mk (natHexPad 4 bits))
    else
      match packBits fmt32 float_value with
      | .error e => .error e
      | .ok bits => .ok ("0x" ++ String.mk (natHexPad 4 (bits / 2 ^ 16)))

/-- `bin_to_float_value` (float_convert.py lines 111-143): validate,
normalize, left-zero-pad to the expected bit count, convert the binary
numeral to minimal-width-at-least-`expected/4` hex, and decode that hex
string. -/
def bin_to_float_value (bin_value : String) (float_type : String) : Except String F754 :=
  match _validate_float_type float_type with
  | .error e => .error e
  | .ok _ =>
    match pyIntBase2 (zfill (if float_type = "float32" then 32 else 16)
        (_normalize_bin bin_value)) with
    | none => .error "invalid literal for int() with base 2"
    | some n =>
      hex_to_float_value
        (String.mk (natHexPad ((if float_type = "float32" then 32 else 16) / 4) n)) float_type

/-! ### Arithmetic facts about the codec's numeric helpers -/

theorem qpow2_eq_zpow (d : ℤ) : qpow2 d = (2 : ℚ) ^ d := by
  cases d with
  | ofNat n => simp [qpow2]
  | negSucc n => simp [qpow2, zpow_negSucc]

theorem qpow2_pos (d : ℤ) : 0 < qpow2 d := by
  rw [qpow2_eq_zpow]
  positivity

theorem qpow2_natCast (n : ℕ) : qpow2 (n : ℤ) = 2 ^ n := by
  rw [qpow2_eq_zpow, zpow_natCast]

theorem qpow2_add (a b : ℤ) : qpow2 (a + b) = qpow2 a * qpow2 b := by
  rw [qpow2_eq_zpow, qpow2_eq_zpow, qpow2_eq_zpow, zpow_add₀ (by norm_num : (2:ℚ) ≠ 0)]

theorem qpow2_sub (a b : ℤ) : qpow2 (a - b) = qpow2 a / qpow2 b := by
  rw [qpow2_eq_zpow, qpow2_eq_zpow, qpow2_eq_zpow, zpow_sub₀ (by norm_num : (2:ℚ) ≠ 0)]

theorem qpow2_lt_qpow2 {a b : ℤ} (h : a < b) : qpow2 a < qpow2 b := by
  rw [qpow2_eq_zpow, qpow2_eq_zpow]
  exact zpow_lt_zpow_right₀ (by norm_num) h

theorem qpow2_le_qpow2 {a b : ℤ} (h : a ≤ b) : qpow2 a ≤ qpow2 b := by
  rcases lt_or_eq_of_le h with h2 | h2
  · exact (qpow2_lt_qpow2 h2).le
  · rw [h2]

theorem log2fuel_bracket : ∀ f n : ℕ, 0 < n → n ≤ f →
    2 ^ log2fuel f n ≤ n ∧ n < 2 ^ (log2fuel f n + 1) := by
  intro f
  induction f with
  | zero => intro n h0 h1; omega
  | succ f ih =>
    intro n h0 h1
    simp only [log2fuel]
    by_cases h2 : n < 2
    · rw [if_pos h2]
      norm_num
      omega
    · rw [if_neg h2]
      obtain ⟨l, r⟩ := ih (n / 2) (by omega) (by omega)
      rw [pow_succ, pow_succ] at *
      constructor <;> omega

theorem nlog2_bracket (n : ℕ) (h : 0 < n) : 2 ^ nlog2 n ≤ n ∧ n < 2 ^ (nlog2 n + 1) :=
  log2fuel_bracket n n h le_rfl

theorem floorLog2_bracket (q : ℚ) (h : 0 < q) :
    qpow2 (floorLog2 q) ≤ q ∧ q < qpow2 (floorLog2 q + 1) := by
  have hnum : 0 < q.num := Rat.num_pos.mpr h
  have hden : 0 < q.den := q.pos
  have hcast : ((q.num.toNat : ℤ)) = q.num := Int.toNat_of_nonneg hnum.le
  obtain ⟨la, ra⟩ := nlog2_bracket q.num.toNat (by omega)
  obtain ⟨lb, rb⟩ := nlog2_bracket q.den hden
  have hqden : q * (q.den : ℚ) = (q.num : ℚ) := Rat.mul_den_eq_num q
  have key2 : q < qpow2 ((nlog2 q.num.toNat : ℤ) - (nlog2 q.den : ℤ) + 1) := by
    have e : (nlog2 q.num.toNat : ℤ) - (nlog2 q.den : ℤ) + 1 =
        ((nlog2 q.num.toNat + 1 : ℕ) : ℤ) - ((nlog2 q.den : ℕ) : ℤ) := by push_cast; ring
    rw [e, qpow2_sub, qpow2_natCast, qpow2_natCast, lt_div_iff (by positivity)]
    have h5 : q * (2 : ℚ) ^ nlog2 q.den ≤ q * (q.den : ℚ) :=
      mul_le_mul_of_nonneg_left (by exact_mod_cast lb) h.le
    have h7 : (q.num : ℚ) < (2 : ℚ) ^ (nlog2 q.num.toNat + 1) := by
      rw [← hcast]
      exact_mod_cast ra
    calc q * (2 : ℚ) ^ nlog2 q.den ≤ q * (q.den : ℚ) := h5
      _ = (q.num : ℚ) := hqden
      _ < _ := h7
  have key1 : qpow2 ((nlog2 q.num.toNat : ℤ) - (nlog2 q.den : ℤ) - 1) < q := by
    have e : (nlog2 q.num.toNat : ℤ) - (nlog2 q.den : ℤ) - 1 =
        ((nlog2 q.num.toNat : ℕ) : ℤ) - ((nlog2 q.den + 1 : ℕ) : ℤ) := by push_cast; ring
    rw [e, qpow2_sub, qpow2_natCast, qpow2_natCast, div_lt_iff (by positivity)]
    have h5 : q * (q.den : ℚ) < q * (2 : ℚ) ^ (nlog2 q.den + 1) :=
      mul_lt_mul_of_pos_left (by exact_mod_cast rb) h
    have h6 : (2 : ℚ) ^ nlog2 q.num.toNat ≤ (q.num : ℚ) := by
      rw [← hcast]
      exact_mod_cast la
    calc (2 : ℚ) ^ nlog2 q.num.toNat ≤ (q.num : ℚ) := h6
      _ = q * (q.den : ℚ) := hqden.symm
      _ < _ := h5
  unfold floorLog2
  by_cases h1 : q < qpow2 ((nlog2 q.num.toNat : ℤ) - (nlog2 q.den : ℤ))
  · rw [if_pos h1]
    exact ⟨key1.le, by rw [sub_add_cancel]; exact h1⟩
  · rw [if_neg h1]
    rw [if_pos key2]
    exact ⟨not_lt.mp h1, key2⟩

theorem floorLog2_unique (q : ℚ) (k : ℤ) (h : 0 < q)
    (h1 : qpow2 k ≤ q) (h2 : q < qpow2 (k + 1)) : floorLog2 q = k := by
  obtain ⟨l, r⟩ := floorLog2_bracket q h
  by_contra hne
  rcases lt_or_gt_of_ne hne with hlt | hgt
  · have : qpow2 (floorLog2 q + 1) ≤ qpow2 k := qpow2_le_qpow2 (by omega)
    exact absurd (lt_of_lt_of_le r this) (not_lt.mpr h1)
  · have : qpow2 (k + 1) ≤ qpow2 (floorLog2 q) := qpow2_le_qpow2 (by omega)
    exact absurd (lt_of_lt_of_le h2 this) (not_lt.mpr l)

theorem rhe_intCast (n : ℤ) : rhe (n : ℚ) = n := by
  unfold rhe
  rw [Int.floor_intCast]
  rw [if_pos (by norm_num)]

theorem rhe_eq_floor_or_succ (q : ℚ) : rhe q = ⌊q⌋ ∨ rhe q = ⌊q⌋ + 1 := by
  unfold rhe
  split_ifs <;> simp

theorem rhe_eq_of_lt_half (q : ℚ) (n : ℤ) (h1 : (n : ℚ) ≤ q) (h2 : q < (n : ℚ) + 1 / 2) :
    rhe q = n := by
  have hf : ⌊q⌋ = n := by
    rw [Int.floor_eq_iff]
    constructor
    · exact h1
    · calc q < (n : ℚ) + 1 / 2 := h2
        _ ≤ n + 1 := by norm_num
  unfold rhe
  rw [hf, if_pos (by push_cast; linarith)]

theorem rhe_lower (q : ℚ) : q - 1 / 2 ≤ ((rhe q : ℤ) : ℚ) := by
  have hfl : (⌊q⌋ : ℚ) ≤ q := Int.floor_le q
  have hfu : q < ⌊q⌋ + 1 := Int.lt_floor_add_one q
  unfold rhe
  split_ifs with a b c <;> push_cast <;> linarith

theorem rhe_ge_of_half_le (q : ℚ) (n : ℤ) (hodd : ¬ n % 2 = 0)
    (h : (n : ℚ) + 1 / 2 ≤ q) : n + 1 ≤ rhe q := by
  by_cases hq : q < (n : ℚ) + 1
  · have hf : ⌊q⌋ = n := by
      rw [Int.floor_eq_iff]
      exact ⟨by linarith, hq⟩
    unfold rhe
    rw [hf]
    split_ifs with a b c
    · push_cast at a; linarith
    · omega
    · omega
  · have hfl : (n + 1 : ℤ) ≤ ⌊q⌋ := by
      rw [Int.le_floor]
      push_cast
      linarith
    rcases rhe_eq_floor_or_succ q with h2 | h2 <;> omega

theorem rhe_eq_zero_of_small (q : ℚ) (h0 : 0 < q) (h : q ≤ 1 / 2) : rhe q = 0 := by
  have hf : ⌊q⌋ = 0 := by
    rw [Int.floor_eq_iff] <;> norm_num
    exact ⟨h0.le, by linarith⟩
  unfold rhe
  rw [hf]
  split_ifs with a b <;> first | rfl | (exfalso; push_cast at a b; linarith) | omega

/-! ### Exactly-representable binary32 values round-trip through the codec -/

/-- The finite binary32 value with sign `s`, biased exponent field `E`
and mantissa field `M`, as assembled bits. -/
def bitsOf32 (s : Bool) (E M : ℕ) : ℕ := (if s then 2 ^ 31 else 0) + E * 2 ^ 23 + M

/-- The magnitude of the finite binary32 value with fields `E`, `M`. -/
def valOf32 (E M : ℕ) : ℚ :=
  if E = 0 then (M : ℚ) * qpow2 (-149) else ((2 ^ 23 + M : ℕ) : ℚ) * qpow2 ((E : ℤ) - 150)

theorem decode_bitsOf32 (s : Bool) (E M : ℕ) (hE : E < 255) (hM : M < 2 ^ 23) :
    decodeBits fmt32 (bitsOf32 s E M) = .finite s (valOf32 E M) := by
  have hMod : bitsOf32 s E M % 2 ^ 23 = M := by
    unfold bitsOf32
    cases s <;> simp only [Bool.false_eq_true, if_false, eq_self_iff_true, if_true] <;> omega
  have hExp : bitsOf32 s E M / 2 ^ 23 % 2 ^ 8 = E := by
    unfold bitsOf32
    cases s <;> simp only [Bool.false_eq_true, if_false, eq_self_iff_true, if_true] <;> omega
  have hSign : decide (bitsOf32 s E M / 2 ^ (23 + 8) % 2 = 1) = s := by
    unfold bitsOf32
    cases s
    · rw [decide_eq_false_iff_not]
      simp only [Bool.false_eq_true, if_false]
      omega
    · rw [decide_eq_true_eq]
      simp only [eq_self_iff_true, if_true]
      omega
  show decodeBits ⟨23, 8, 127⟩ (bitsOf32 s E M) = .finite s (valOf32 E M)
  unfold decodeBits
  simp only
  rw [hMod, hExp, hSign, if_neg (by omega : ¬ E = 2 ^ 8 - 1)]
  unfold valOf32
  by_cases hE0 : E = 0
  · rw [if_pos hE0, if_pos hE0]
    have harg : FloatFmt.emin ⟨23, 8, 127⟩ - ((23 : ℕ) : ℤ) = -149 := by
      unfold FloatFmt.emin
      norm_num
    rw [harg]
  · rw [if_neg hE0, if_neg hE0]
    have harg : (E : ℤ) - (127 : ℤ) - ((23 : ℕ) : ℤ) = (E : ℤ) - 150 := by push_cast; ring
    rw [harg]

theorem packBits32_zero (s : Bool) :
    packBits fmt32 (.finite s 0) = .ok (if s then 2 ^ 31 else 0) := by
  show packBits ⟨23, 8, 127⟩ (.finite s 0) = _
  simp [packBits]

theorem packBits32_normal (s : Bool) (mag : ℚ) (e0 m : ℤ)
    (hpos : 0 < mag)
    (he0 : floorLog2 mag = e0)
    (hemin : -126 ≤ e0)
    (hm : rhe (mag * qpow2 (23 - e0)) = m)
    (hnoc : ¬ m = 2 ^ 24)
    (hnofl : ¬ FloatFmt.maxFinite fmt32 < (m : ℚ) * qpow2 (e0 - 23))
    (hge : 2 ^ 23 ≤ m) :
    packBits fmt32 (.finite s mag) =
      .ok ((if s then 2 ^ 31 else 0) + (e0 + 127).toNat * 2 ^ 23 + (m - 2 ^ 23).toNat) := by
  have habs : |mag| = mag := abs_of_pos hpos
  have hne : ¬ |mag| = 0 := by rw [habs]; exact ne_of_gt hpos
  have hmax : max (floorLog2 |mag|) (FloatFmt.emin fmt32) = e0 := by
    rw [habs, he0]
    have : FloatFmt.emin fmt32 = -126 := by norm_num [FloatFmt.emin, fmt32]
    rw [this]
    omega
  simp only [packBits, hne, if_false]
  rw [habs] at hmax ⊢
  have hmant : ((fmt32.mant : ℤ)) = 23 := by norm_num [fmt32]
  rw [hmant, hmax, hm, if_neg hnofl]
  have hnoc2 : ¬ m = 2 ^ (fmt32.mant + 1) := by
    have he : (2 : ℤ) ^ (fmt32.mant + 1) = 2 ^ 24 := by norm_num [fmt32]
    rw [he]
    exact hnoc
  rw [if_neg hnoc2]
  rw [if_neg (by norm_num [fmt32]; omega : ¬ ((e0, m).2 < 2 ^ fmt32.mant))]
  have h1 : ((e0, m).1 - FloatFmt.emin fmt32 + 1).toNat = (e0 + 127).toNat := by
    norm_num [FloatFmt.emin, fmt32]
    omega
  have h2 : ((e0, m).2 - 2 ^ fmt32.mant).toNat = (m - 2 ^ 23).toNat := by
    norm_num [fmt32]
  rw [h1, h2]
  norm_num [fmt32]

theorem packBits32_sub (s : Bool) (mag : ℚ) (e0 m : ℤ)
    (hpos : 0 < mag)
    (he0 : floorLog2 mag = e0)
    (he : e0 < -126)
    (hm : rhe (mag * qpow2 149) = m)
    (hnofl : ¬ FloatFmt.maxFinite fmt32 < (m : ℚ) * qpow2 (-126 - 23))
    (hlt : m < 2 ^ 23)
    (h0 : 0 ≤ m) :
    packBits fmt32 (.finite s mag) = .ok ((if s then 2 ^ 31 else 0) + m.toNat) := by
  have habs : |mag| = mag := abs_of_pos hpos
  have hne : ¬ |mag| = 0 := by rw [habs]; exact ne_of_gt hpos
  have hmax : max (floorLog2 |mag|) (FloatFmt.emin fmt32) = -126 := by
    rw [habs, he0]
    have : FloatFmt.emin fmt32 = -126 := by norm_num [FloatFmt.emin, fmt32]
    rw [this]
    omega
  simp only [packBits, hne, if_false]
  rw [habs] at hmax ⊢
  have hmant : ((fmt32.mant : ℤ)) = 23 := by norm_num [fmt32]
  rw [hmant, hmax]
  rw [show (23 : ℤ) - -126 = 149 by norm_num, hm]
  rw [if_neg hnofl]
  rw [if_neg (by norm_num [fmt32] <;> omega : ¬ m = 2 ^ (fmt32.mant + 1))]
  rw [if_pos (by norm_num [fmt32] <;> omega : ((-126 : ℤ), m).2 < 2 ^ fmt32.mant)]
  norm_num [fmt32]

theorem pack_valOf32 (s : Bool) (E M : ℕ) (hE : E < 255) (hM : M < 2 ^ 23) :
    packBits fmt32 (.finite s (valOf32 E M)) = .ok (bitsOf32 s E M) := by
  have q1 : qpow2 0 = 1 := by rw [qpow2_eq_zpow]; norm_num
  by_cases hE0 : E = 0
  · subst hE0
    by_cases hM0 : M = 0
    · subst hM0
      have hv : valOf32 0 0 = 0 := by norm_num [valOf32]
      rw [hv, packBits32_zero]
      unfold bitsOf32
      norm_num
    · have hv : valOf32 0 M = (M : ℚ) * qpow2 (-149) := by rw [valOf32, if_pos rfl]
      have hMpos : (0 : ℚ) < (M : ℚ) := by exact_mod_cast Nat.pos_of_ne_zero hM0
      have hpos : 0 < (M : ℚ) * qpow2 (-149) := mul_pos hMpos (qpow2_pos _)
      have hub : (M : ℚ) * qpow2 (-149) < qpow2 (-126) := by
        have h1 : (M : ℚ) < 2 ^ 23 := by exact_mod_cast hM
        have h2 : (M : ℚ) * qpow2 (-149) < 2 ^ 23 * qpow2 (-149) :=
          mul_lt_mul_of_pos_right h1 (qpow2_pos _)
        have h3 : (2 : ℚ) ^ 23 * qpow2 (-149) = qpow2 (-126) := by
          rw [← qpow2_natCast 23, ← qpow2_add]
          norm_num
        rw [h3] at h2
        exact h2
      have he0' : floorLog2 ((M : ℚ) * qpow2 (-149)) < -126 := by
        obtain ⟨l, _⟩ := floorLog2_bracket _ hpos
        by_contra hcon
        push_neg at hcon
        have h4 := qpow2_le_qpow2 hcon
        linarith
      have hm : rhe ((M : ℚ) * qpow2 (-149) * qpow2 149) = (M : ℤ) := by
        have harg : (M : ℚ) * qpow2 (-149) * qpow2 149 = ((M : ℤ) : ℚ) := by
          rw [mul_assoc, ← qpow2_add]
          norm_num [q1]
        rw [harg, rhe_intCast]
      have hnofl : ¬ FloatFmt.maxFinite fmt32 < ((M : ℤ) : ℚ) * qpow2 (-126 - 23) := by
        push_neg
        have e1 : ((M : ℤ) : ℚ) * qpow2 (-126 - 23) = (M : ℚ) * qpow2 (-149) := by
          norm_num
        rw [e1]
        have e2 : qpow2 (-126) ≤ FloatFmt.maxFinite fmt32 := by
          unfold FloatFmt.maxFinite
          have e3 : qpow2 (FloatFmt.emax fmt32 - (fmt32.mant : ℤ)) = qpow2 104 := by
            norm_num [FloatFmt.emax, fmt32]
          rw [e3]
          have e4 : (1 : ℚ) ≤ (((2 ^ (fmt32.mant + 1) - 1 : ℕ)) : ℚ) := by
            norm_num [fmt32]
          calc qpow2 (-126) ≤ qpow2 104 := qpow2_le_qpow2 (by norm_num)
            _ = 1 * qpow2 104 := by ring
            _ ≤ _ := mul_le_mul_of_nonneg_right e4 (qpow2_pos _).le
        linarith
      rw [hv, packBits32_sub s _ _ _ hpos rfl he0' hm hnofl
        (by exact_mod_cast hM) (by positivity)]
      unfold bitsOf32
      norm_num
  · have hv : valOf32 E M = ((2 ^ 23 + M : ℕ) : ℚ) * qpow2 ((E : ℤ) - 150) := by
      rw [valOf32, if_neg hE0]
    have hsum : (0 : ℚ) < ((2 ^ 23 + M : ℕ) : ℚ) := by positivity
    have hpos : 0 < ((2 ^ 23 + M : ℕ) : ℚ) * qpow2 ((E : ℤ) - 150) :=
      mul_pos hsum (qpow2_pos _)
    have hlow : qpow2 ((E : ℤ) - 127) ≤ ((2 ^ 23 + M : ℕ) : ℚ) * qpow2 ((E : ℤ) - 150) := by
      have e1 : qpow2 ((E : ℤ) - 127) = 2 ^ 23 * qpow2 ((E : ℤ) - 150) := by
        rw [show (E : ℤ) - 127 = ((23 : ℕ) : ℤ) + ((E : ℤ) - 150) by push_cast; ring,
          qpow2_add, qpow2_natCast]
      rw [e1]
      have e2 : (2 : ℚ) ^ 23 ≤ ((2 ^ 23 + M : ℕ) : ℚ) := by
        push_cast
        linarith [Nat.cast_nonneg (α := ℚ) M]
      exact mul_le_mul_of_nonneg_right e2 (qpow2_pos _).le
    have hup : ((2 ^ 23 + M : ℕ) : ℚ) * qpow2 ((E : ℤ) - 150) < qpow2 ((E : ℤ) - 127 + 1) := by
      have e1 : qpow2 ((E : ℤ) - 127 + 1) = 2 ^ 24 * qpow2 ((E : ℤ) - 150) := by
        rw [show (E : ℤ) - 127 + 1 = ((24 : ℕ) : ℤ) + ((E : ℤ) - 150) by push_cast; ring,
          qpow2_add, qpow2_natCast]
      rw [e1]
      have e2 : ((2 ^ 23 + M : ℕ) : ℚ) < 2 ^ 24 := by
        push_cast
        have : (M : ℚ) < 2 ^ 23 := by exact_mod_cast hM
        norm_num
        linarith
      exact mul_lt_mul_of_pos_right e2 (qpow2_pos _)
    have he0 : floorLog2 (((2 ^ 23 + M : ℕ) : ℚ) * qpow2 ((E : ℤ) - 150)) = (E : ℤ) - 127 :=
      floorLog2_unique _ _ hpos hlow hup
    have hm : rhe (((2 ^ 23 + M : ℕ) : ℚ) * qpow2 ((E : ℤ) - 150) *
        qpow2 (23 - ((E : ℤ) - 127))) = ((2 ^ 23 + M : ℕ) : ℤ) := by
      have harg : ((2 ^ 23 + M : ℕ) : ℚ) * qpow2 ((E : ℤ) - 150) *
          qpow2 (23 - ((E : ℤ) - 127)) = (((2 ^ 23 + M : ℕ) : ℤ) : ℚ) := by
        rw [mul_assoc, ← qpow2_add,
          show (E : ℤ) - 150 + (23 - ((E : ℤ) - 127)) = 0 by ring, q1]
        push_cast
        ring
      rw [harg, rhe_intCast]
    have hnofl : ¬ FloatFmt.maxFinite fmt32 <
        ((((2 ^ 23 + M : ℕ) : ℤ)) : ℚ) * qpow2 ((E : ℤ) - 127 - 23) := by
      push_neg
      unfold FloatFmt.maxFinite
      have e3 : qpow2 (FloatFmt.emax fmt32 - (fmt32.mant : ℤ)) = qpow2 104 := by
        norm_num [FloatFmt.emax, fmt32]
      rw [e3]
      have f1 : ((((2 ^ 23 + M : ℕ) : ℤ)) : ℚ) ≤ (((2 ^ (fmt32.mant + 1) - 1 : ℕ)) : ℚ) := by
        have hn : (2 ^ 23 + M : ℕ) ≤ 2 ^ (fmt32.mant + 1) - 1 := by
          have : fmt32.mant = 23 := rfl
          rw [this]
          omega
        exact_mod_cast hn
      have f2 : qpow2 ((E : ℤ) - 127 - 23) ≤ qpow2 104 := qpow2_le_qpow2 (by omega)
      calc ((((2 ^ 23 + M : ℕ) : ℤ)) : ℚ) * qpow2 ((E : ℤ) - 127 - 23)
          ≤ (((2 ^ (fmt32.mant + 1) - 1 : ℕ)) : ℚ) * qpow2 ((E : ℤ) - 127 - 23) :=
            mul_le_mul_of_nonneg_right f1 (qpow2_pos _).le
        _ ≤ _ := mul_le_mul_of_nonneg_left f2 (Nat.cast_nonneg _)
    have hemin : (-126 : ℤ) ≤ (E : ℤ) - 127 := by omega
    have hnoc : ¬ ((2 ^ 23 + M : ℕ) : ℤ) = 2 ^ 24 := by
      have : (2 : ℕ) ^ 23 + M < 2 ^ 24 := by omega
      omega
    have hge : (2 : ℤ) ^ 23 ≤ ((2 ^ 23 + M : ℕ) : ℤ) := by
      have : (2 : ℕ) ^ 23 ≤ 2 ^ 23 + M := by omega
      omega
    have hfinal := packBits32_normal s _ ((E : ℤ) - 127) (((2 ^ 23 + M : ℕ) : ℤ)) hpos he0
      hemin hm hnoc hnofl hge
    have hbits : (if s then 2 ^ 31 else 0) + ((E : ℤ) - 127 + 127).toNat * 2 ^ 23 +
        (((2 ^ 23 + M : ℕ) : ℤ) - 2 ^ 23).toNat = bitsOf32 s E M := by
      unfold bitsOf32
      have t1 : ((E : ℤ) - 127 + 127).toNat = E := by omega
      have t2 : (((2 ^ 23 + M : ℕ) : ℤ) - 2 ^ 23).toNat = M := by omega
      rw [t1, t2]
    rw [hv, hfinal, hbits]

/-! ### Hex rendering and parsing invert each other -/

/-- Uppercase hex digit characters (what `natHex` produces). -/
def isUpHex (c : Char) : Bool := "0123456789ABCDEF".data.contains c

/-- Little-endian value of a hex digit list. -/
def valLE : List Char → ℕ
  | [] => 0
  | c :: r => hexDigitVal c + 16 * valLE r

theorem hexValL_append_one (xs : List Char) (c : Char) :
    hexValL (xs ++ [c]) = 16 * hexValL xs + hexDigitVal c := by
  unfold hexValL
  rw [List.foldl_append]
  rfl

theorem hexValL_reverse (l : List Char) : hexValL l.reverse = valLE l := by
  induction l with
  | nil => rfl
  | cons c r ih =>
    rw [List.reverse_cons, hexValL_append_one, ih]
    simp only [valLE]
    ring

theorem hexDigitVal_hexDigitChar : ∀ k, k < 16 → hexDigitVal (hexDigitChar k) = k := by decide

theorem hexDigitChar_upHex : ∀ k, k < 16 → isUpHex (hexDigitChar k) = true := by decide

theorem hexRevF_val : ∀ f n, n ≤ f → valLE (hexRevF f n) = n := by
  intro f
  induction f with
  | zero => intro n h; interval_cases n; rfl
  | succ f ih =>
    intro n h
    simp only [hexRevF]
    by_cases h0 : n = 0
    · rw [if_pos h0, h0]; rfl
    · rw [if_neg h0]
      unfold valLE
      rw [hexDigitVal_hexDigitChar _ (by omega), ih (n / 16) (by omega)]
      omega

theorem hexRevF_len : ∀ f n k, n ≤ f → n < 16 ^ k → (hexRevF f n).length ≤ k := by
  intro f
  induction f with
  | zero => intro n k _ _; simp [hexRevF]
  | succ f ih =>
    intro n k h hk
    simp only [hexRevF]
    by_cases h0 : n = 0
    · rw [if_pos h0]; simp
    · rw [if_neg h0]
      have hk1 : 0 < k := by
        by_contra hc
        push_neg at hc
        interval_cases k
        simp at hk
        omega
      have : n / 16 < 16 ^ (k - 1) := by
        rw [Nat.div_lt_iff_lt_mul (by norm_num)]
        calc n < 16 ^ k := hk
          _ = 16 ^ (k - 1) * 16 := by
            rw [← pow_succ]
            congr 1
            omega
      have hlen := ih (n / 16) (k - 1) (by omega) this
      simp only [List.length_cons]
      omega

theorem hexRevF_all : ∀ f n, (hexRevF f n).all isUpHex = true := by
  intro f
  induction f with
  | zero => intro n; rfl
  | succ f ih =>
    intro n
    simp only [hexRevF]
    by_cases h0 : n = 0
    · rw [if_pos h0]; rfl
    · rw [if_neg h0]
      simp only [List.all_cons, Bool.and_eq_true]
      exact ⟨hexDigitChar_upHex _ (by omega), ih (n / 16)⟩

theorem natHex_val (n : ℕ) : hexValL (natHex n) = n := by
  unfold natHex
  by_cases h0 : n = 0
  · rw [if_pos h0, h0]; rfl
  · rw [if_neg h0, hexValL_reverse, hexRevF_val n n le_rfl]

theorem natHex_len_le (n k : ℕ) (hk : 0 < k) (h : n < 16 ^ k) : (natHex n).length ≤ k := by
  unfold natHex
  by_cases h0 : n = 0
  · rw [if_pos h0]; simpa using hk
  · rw [if_neg h0, List.length_reverse]
    exact hexRevF_len n n k le_rfl h

theorem natHex_all (n : ℕ) : (natHex n).all isUpHex = true := by
  unfold natHex
  by_cases h0 : n = 0
  · rw [if_pos h0]; rfl
  · rw [if_neg h0, List.all_reverse]
    exact hexRevF_all n n

theorem hexValL_zeros (k : ℕ) (l : List Char) :
    hexValL (List.replicate k '0' ++ l) = hexValL l := by
  induction k with
  | zero => rfl
  | succ k ih =>
    rw [List.replicate_succ, List.cons_append]
    show hexValL (List.replicate k '0' ++ l) = hexValL l
    exact ih

theorem natHexPad_val (w n : ℕ) : hexValL (natHexPad w n) = n := by
  unfold natHexPad
  rw [hexValL_zeros, natHex_val]

theorem natHexPad_len (w n : ℕ) (hw : 0 < w) (h : n < 16 ^ w) :
    (natHexPad w n).length = w := by
  unfold natHexPad
  rw [List.length_append, List.length_replicate]
  have := natHex_len_le n w hw h
  omega

theorem natHexPad_all (w n : ℕ) : (natHexPad w n).all isUpHex = true := by
  unfold natHexPad
  rw [List.all_append, Bool.and_eq_true]
  refine ⟨?_, natHex_all n⟩
  rw [List.all_eq_true]
  intro c hc
  rw [List.eq_of_mem_replicate hc]
  rfl

theorem upHex_props (c : Char) (h : isUpHex c = true) :
    isHexDigit c = true ∧ Char.toUpper c = c ∧ isPySpace c = false ∧ ¬ c = ' ' := by
  have hm : c ∈ "0123456789ABCDEF".data := by simpa [isUpHex] using h
  fin_cases hm <;> exact ⟨by decide, by decide, by decide, by decide⟩

theorem dropWhile_no (p : Char → Bool) (l : List Char) (h : ∀ c ∈ l, p c = false) :
    l.dropWhile p = l := by
  cases l with
  | nil => rfl
  | cons c r =>
    rw [List.dropWhile_cons, h c (by simp)]
    simp

theorem pyStrip_no_space (l : List Char) (h : ∀ c ∈ l, isPySpace c = false) :
    pyStrip ⟨l⟩ = ⟨l⟩ := by
  unfold pyStrip
  rw [dropWhile_no _ _ h,
    dropWhile_no _ _ (fun c hc => h c (by simpa using hc)), List.reverse_reverse]

theorem map_fixed {α : Type} (f : α → α) (l : List α) (h : ∀ c ∈ l, f c = c) :
    l.map f = l := by
  induction l with
  | nil => rfl
  | cons c r ih =>
    rw [List.map_cons, h c (by simp), ih (fun c hc => h c (by simp [hc]))]

theorem strUpper_fixed (l : List Char) (h : ∀ c ∈ l, isUpHex c = true) :
    strUpper ⟨l⟩ = ⟨l⟩ := by
  unfold strUpper
  show (⟨l.map Char.toUpper⟩ : String) = ⟨l⟩
  rw [map_fixed _ _ (fun c hc => (upHex_props c (h c hc)).2.1)]

theorem zfill_of_long (w : ℕ) (l : List Char) (h : w ≤ l.length) :
    zfill w ⟨l⟩ = ⟨l⟩ := by
  unfold zfill
  show (⟨List.replicate (w - l.length) '0' ++ l⟩ : String) = ⟨l⟩
  rw [Nat.sub_eq_zero_of_le h, List.replicate_zero, List.nil_append]

theorem normalizeHex_0x (l : List Char) (h : ∀ c ∈ l, isUpHex c = true) :
    _normalize_hex ⟨'0' :: 'x' :: l⟩ = ⟨l⟩ := by
  have hns : ∀ c ∈ ('0' :: 'x' :: l), isPySpace c = false := by
    intro c hc
    rcases List.mem_cons.mp hc with rfl | hc2
    · rfl
    rcases List.mem_cons.mp hc2 with rfl | hc3
    · rfl
    · exact (upHex_props c (h c hc3)).2.2.1
  unfold _normalize_hex
  rw [pyStrip_no_space _ hns]
  rw [if_pos (by rfl : startsWith0x (⟨'0' :: 'x' :: l⟩ : String).data = true)]
  show strUpper ⟨l⟩ = ⟨l⟩
  exact strUpper_fixed l h

theorem bytesFromHex_digits (l : List Char) (h : ∀ c ∈ l, isUpHex c = true)
    (heven : l.length % 2 = 0) :
    bytesFromHex ⟨l⟩ = .ok (l.length / 2, hexValL l) := by
  unfold bytesFromHex
  have hfil : l.filter (fun c => ¬ c = ' ') = l := by
    rw [List.filter_eq_self]
    intro c hc
    simpa using (upHex_props c (h c hc)).2.2.2
  show (if (l.filter (fun c => ¬ c = ' ')).all isHexDigit ∧
      (l.filter (fun c => ¬ c = ' ')).length % 2 = 0 then
    Except.ok ((l.filter (fun c => ¬ c = ' ')).length / 2,
      hexValL (l.filter (fun c => ¬ c = ' '))) else _) = _
  rw [hfil]
  rw [if_pos ⟨List.all_eq_true.mpr (fun c hc => (upHex_props c (h c hc)).1), heven⟩]

theorem hex32_decode (bits : ℕ) (h : bits < 2 ^ 32) :
    hex_to_float_value ("0x" ++ String.mk (natHexPad 8 bits)) "float32" =
      .ok (decodeBits fmt32 bits) := by
  have h16 : bits < 16 ^ 8 := by norm_num at h ⊢; exact h
  have hlen : (natHexPad 8 bits).length = 8 := natHexPad_len 8 bits (by norm_num) h16
  have hup : ∀ c ∈ natHexPad 8 bits, isUpHex c = true :=
    List.all_eq_true.mp (natHexPad_all 8 bits)
  have hstr : ("0x" ++ String.mk (natHexPad 8 bits)) = ⟨'0' :: 'x' :: natHexPad 8 bits⟩ := rfl
  rw [hstr]
  unfold hex_to_float_value
  rw [show _validate_float_type "float32" = .ok () from rfl]
  show (if ("float32" : String) = "float32" then _ else _) = _
  rw [if_pos rfl, normalizeHex_0x _ hup, zfill_of_long 8 _ (by omega),
    bytesFromHex_digits _ hup (by omega), hlen]
  dsimp only
  rw [if_pos (by norm_num : (8 : ℕ) / 2 = 4), natHexPad_val]

theorem float_to_hex32_of_pack (v : F754) (bits : ℕ) (h : packBits fmt32 v = .ok bits) :
    float_to_hex_value v "float32" = .ok ("0x" ++ String.mk (natHexPad 8 bits)) := by
  unfold float_to_hex_value
  rw [show _validate_float_type "float32" = .ok () from rfl]
  show (if ("float32" : String) = "float32" then _ else _) = _
  rw [if_pos rfl, h]

theorem bitsOf32_lt (s : Bool) (E M : ℕ) (hE : E < 255) (hM : M < 2 ^ 23) :
    bitsOf32 s E M < 2 ^ 32 := by
  unfold bitsOf32
  cases s <;> simp only [Bool.false_eq_true, if_false, eq_self_iff_true, if_true] <;> omega

theorem except_bind_ok {α β ε : Type} (a : α) (f : α → Except ε β) :
    (Except.ok (ε := ε) a).bind f = f a := rfl

theorem hexRevF_zero_arg : ∀ g, hexRevF g 0 = [] := by
  intro g; cases g <;> rfl

theorem hexRevF_fuel : ∀ f g n, n < 16 ^ f → n < 16 ^ g → hexRevF f n = hexRevF g n := by
  intro f
  induction f with
  | zero =>
    intro g n hf _
    have : n = 0 := by simpa using hf
    rw [this, hexRevF_zero_arg, hexRevF_zero_arg]
  | succ f ih =>
    intro g n hf hg
    by_cases h0 : n = 0
    · rw [h0, hexRevF_zero_arg, hexRevF_zero_arg]
    · have hg1 : g ≠ 0 := by
        intro h
        rw [h, pow_zero] at hg
        omega
      obtain ⟨g', rfl⟩ := Nat.exists_eq_succ_of_ne_zero hg1
      simp only [hexRevF, if_neg h0]
      rw [ih g' (n / 16)
        ((Nat.div_lt_iff_lt_mul (by norm_num)).mpr (by rw [← pow_succ]; exact hf))
        ((Nat.div_lt_iff_lt_mul (by norm_num)).mpr (by rw [← pow_succ]; exact hg))]

theorem natHex_eval (k n : ℕ) (h0 : n ≠ 0) (h : n < 16 ^ k) :
    natHex n = (hexRevF k n).reverse := by
  rw [natHex, if_neg h0, hexRevF_fuel n k n (Nat.lt_pow_self (by norm_num) n) h]

set_option maxHeartbeats 2000000 in
/-- C7: every value exactly representable as a finite binary32 float
(written by its sign and its exponent/mantissa fields) survives the
`float_to_hex_value` / `hex_to_float_value` round trip unchanged for kind
`float32`; moreover `1.0` encodes to `0x3F800000` and `-1.0` to
`0xBF800000`. -/
theorem c7_float32_hex_roundtrip :
    (∀ (s : Bool) (E M : ℕ), E < 255 → M < 2 ^ 23 →
      (float_to_hex_value (.finite s (valOf32 E M)) "float32").bind
          (fun hx => hex_to_float_value hx "float32") =
        .ok (.finite s (valOf32 E M))) ∧
    float_to_hex_value (.finite false 1) "float32" = .ok "0x3F800000" ∧
    float_to_hex_value (.finite true 1) "float32" = .ok "0xBF800000" := by
  have hone : valOf32 127 0 = 1 := by
    rw [valOf32, if_neg (by norm_num),
      show ((2 ^ 23 + 0 : ℕ) : ℚ) = (2 : ℚ) ^ 23 by norm_num,
      show ((127 : ℕ) : ℤ) - 150 = -23 by norm_num,
      ← qpow2_natCast 23, ← qpow2_add,
      show ((23 : ℕ) : ℤ) + (-23 : ℤ) = 0 by norm_num,
      qpow2_eq_zpow]
    norm_num
  refine ⟨?_, ?_, ?_⟩
  · intro s E M hE hM
    rw [float_to_hex32_of_pack _ _ (pack_valOf32 s E M hE hM)]
    simp only [except_bind_ok]
    rw [hex32_decode _ (bitsOf32_lt s E M hE hM), decode_bitsOf32 s E M hE hM]
  · rw [show (F754.finite false 1) = .finite false (valOf32 127 0) by rw [hone],
      float_to_hex32_of_pack _ _ (pack_valOf32 false 127 0 (by norm_num) (by norm_num)),
      show bitsOf32 false 127 0 = 1065353216 from by decide]
    unfold natHexPad
    rw [natHex_eval 8 1065353216 (by norm_num) (by norm_num)]
    decide
  · rw [show (F754.finite true 1) = .finite true (valOf32 127 0) by rw [hone],
      float_to_hex32_of_pack _ _ (pack_valOf32 true 127 0 (by norm_num) (by norm_num)),
      show bitsOf32 true 127 0 = 3212836864 from by decide]
    unfold natHexPad
    rw [natHex_eval 8 3212836864 (by norm_num) (by norm_num)]
    decide

/-- C7 witness: the round trip instantiated at the fields of `1.0`
(sign `false`, exponent field 127, mantissa field 0). -/
theorem c7_float32_hex_roundtrip_witness :
    (127 : ℕ) < 255 ∧ (0 : ℕ) < 2 ^ 23 ∧
    (float_to_hex_value (.finite false (valOf32 127 0)) "float32").bind
        (fun hx => hex_to_float_value hx "float32") = .ok (.finite false (valOf32 127 0)) :=
  ⟨by decide, by decide, c7_float32_hex_roundtrip.1 false 127 0 (by decide) (by decide)⟩

/-! ### C8 — the float16 overflow and underflow thresholds -/

theorem maxFinite16 : FloatFmt.maxFinite fmt16 = 65504 := by
  unfold FloatFmt.maxFinite
  rw [show FloatFmt.emax fmt16 - (fmt16.mant : ℤ) = ((5 : ℕ) : ℤ) by
      norm_num [FloatFmt.emax, fmt16],
    qpow2_natCast]
  norm_num [fmt16]

theorem rhe_ge_floor (q : ℚ) : ⌊q⌋ ≤ rhe q := by
  rcases rhe_eq_floor_or_succ q with h | h <;> omega

theorem qpow2_neg_nat (n : ℕ) : qpow2 (-(n : ℤ)) = 1 / 2 ^ n := by
  rw [qpow2_eq_zpow, zpow_neg, zpow_natCast, one_div]

theorem rhe_eq_succ_of_half_lt (q : ℚ) (n : ℤ) (h1 : (n : ℚ) + 1 / 2 < q)
    (h2 : q < (n : ℚ) + 1) : rhe q = n + 1 := by
  have hf : ⌊q⌋ = n := by
    rw [Int.floor_eq_iff]
    exact ⟨by linarith, by push_cast; linarith⟩
  unfold rhe
  rw [hf, if_neg (by push_cast; linarith), if_pos (by push_cast; linarith)]

theorem pack16_overflow_cond (mag : ℚ) (h : (65520 : ℚ) ≤ mag) :
    FloatFmt.maxFinite fmt16 <
      (rhe (mag * qpow2 (10 - max (floorLog2 mag) (FloatFmt.emin fmt16))) : ℚ) *
        qpow2 (max (floorLog2 mag) (FloatFmt.emin fmt16) - 10) := by
  have hpos : 0 < mag := by linarith
  obtain ⟨hl, hu⟩ := floorLog2_bracket mag hpos
  have h15 : 15 ≤ floorLog2 mag := by
    by_contra hc
    push_neg at hc
    have h1 : qpow2 (floorLog2 mag + 1) ≤ qpow2 ((15 : ℕ) : ℤ) := qpow2_le_qpow2 (by omega)
    rw [qpow2_natCast] at h1
    norm_num at h1
    linarith
  have hE : max (floorLog2 mag) (FloatFmt.emin fmt16) = floorLog2 mag := by
    have he : FloatFmt.emin fmt16 = -14 := by norm_num [FloatFmt.emin, fmt16]
    rw [he]
    omega
  rw [hE, maxFinite16]
  rcases eq_or_lt_of_le h15 with h15e | h16
  · rw [← h15e]
    have hq32 : qpow2 (10 - (15 : ℤ)) = 1 / 32 := by
      rw [show (10 : ℤ) - 15 = -5 by norm_num, qpow2_eq_zpow]
      norm_num
    have hhalf : (2047 : ℚ) + 1 / 2 ≤ mag * qpow2 (10 - (15 : ℤ)) := by
      rw [hq32]
      linarith
    have hm : (2048 : ℤ) ≤ rhe (mag * qpow2 (10 - (15 : ℤ))) := by
      have := rhe_ge_of_half_le _ 2047 (by decide) hhalf
      omega
    have hmc : (2048 : ℚ) ≤ (rhe (mag * qpow2 (10 - (15 : ℤ))) : ℚ) := by exact_mod_cast hm
    have hq5 : qpow2 ((15 : ℤ) - 10) = 32 := by
      rw [show (15 : ℤ) - 10 = ((5 : ℕ) : ℤ) by norm_num, qpow2_natCast]
      norm_num
    rw [hq5]
    nlinarith
  · have hql : (1024 : ℚ) ≤ mag * qpow2 (10 - floorLog2 mag) := by
      have h1 := mul_le_mul_of_nonneg_right hl (qpow2_pos (10 - floorLog2 mag)).le
      rw [← qpow2_add,
        show floorLog2 mag + (10 - floorLog2 mag) = ((10 : ℕ) : ℤ) by push_cast; ring,
        qpow2_natCast] at h1
      norm_num at h1
      exact h1
    have hm : (1024 : ℤ) ≤ rhe (mag * qpow2 (10 - floorLog2 mag)) := by
      have hfl : (1024 : ℤ) ≤ ⌊mag * qpow2 (10 - floorLog2 mag)⌋ := by
        rw [Int.le_floor]
        exact_mod_cast hql
      have := rhe_ge_floor (mag * qpow2 (10 - floorLog2 mag))
      omega
    have hmc : (1024 : ℚ) ≤ (rhe (mag * qpow2 (10 - floorLog2 mag)) : ℚ) := by
      exact_mod_cast hm
    have hq6 : (64 : ℚ) ≤ qpow2 (floorLog2 mag - 10) := by
      have h1 := qpow2_le_qpow2 (show ((6 : ℕ) : ℤ) ≤ floorLog2 mag - 10 by omega)
      rw [qpow2_natCast] at h1
      norm_num at h1
      exact h1
    nlinarith [qpow2_pos (floorLog2 mag - 10)]

theorem packBits16_overflow (s : Bool) (mag : ℚ) (h : (65520 : ℚ) ≤ mag) :
    packBits fmt16 (.finite s mag) = .error "float too large to pack" := by
  have hpos : 0 < mag := by linarith
  have habs : |mag| = mag := abs_of_pos hpos
  have hne : ¬ |mag| = 0 := by rw [habs]; exact ne_of_gt hpos
  simp only [packBits, hne, if_false]
  rw [habs]
  have hmant : ((fmt16.mant : ℤ)) = 10 := by norm_num [fmt16]
  rw [hmant, if_pos (pack16_overflow_cond mag h)]

theorem packBits16_underflow (s : Bool) (mag : ℚ) (h0 : 0 < mag)
    (h : mag ≤ qpow2 (-25)) :
    packBits fmt16 (.finite s mag) = .ok (if s then 2 ^ 15 else 0) := by
  have habs : |mag| = mag := abs_of_pos h0
  have hne : ¬ |mag| = 0 := by rw [habs]; exact ne_of_gt h0
  obtain ⟨hl, hu⟩ := floorLog2_bracket mag h0
  have hE : max (floorLog2 mag) (FloatFmt.emin fmt16) = -14 := by
    have he : FloatFmt.emin fmt16 = -14 := by norm_num [FloatFmt.emin, fmt16]
    rw [he]
    have he0 : floorLog2 mag < -14 := by
      by_contra hc
      push_neg at hc
      have h1 : qpow2 (-14 : ℤ) ≤ qpow2 (floorLog2 mag) := qpow2_le_qpow2 hc
      have h2 : qpow2 (-25 : ℤ) < qpow2 (-14 : ℤ) := qpow2_lt_qpow2 (by norm_num)
      linarith
    omega
  have hm : rhe (mag * qpow2 24) = 0 := by
    apply rhe_eq_zero_of_small
    · exact mul_pos h0 (qpow2_pos _)
    · have h1 : mag * qpow2 24 ≤ qpow2 (-25) * qpow2 24 :=
        mul_le_mul_of_nonneg_right h (qpow2_pos _).le
      rw [← qpow2_add, show (-25 : ℤ) + 24 = -((1 : ℕ) : ℤ) by norm_num,
        qpow2_neg_nat] at h1
      norm_num at h1
      linarith
  simp only [packBits, hne, if_false]
  rw [habs]
  have hmant : ((fmt16.mant : ℤ)) = 10 := by norm_num [fmt16]
  rw [hmant, hE, show (10 : ℤ) - -14 = 24 by norm_num, hm]
  rw [if_neg (by
    rw [maxFinite16]
    push_cast
    rw [zero_mul]
    norm_num : ¬ FloatFmt.maxFinite fmt16 < ((0 : ℤ) : ℚ) * qpow2 ((-14 : ℤ) - 10))]
  rw [if_neg (by norm_num [fmt16] : ¬ (0 : ℤ) = 2 ^ (fmt16.mant + 1))]
  rw [if_pos (by norm_num [fmt16] : (((-14 : ℤ), (0 : ℤ)).2 < 2 ^ fmt16.mant))]
  norm_num [fmt16]

theorem packBits16_normal (s : Bool) (mag : ℚ) (e0 m : ℤ)
    (hpos : 0 < mag)
    (he0 : floorLog2 mag = e0)
    (hemin : -14 ≤ e0)
    (hm : rhe (mag * qpow2 (10 - e0)) = m)
    (hnoc : ¬ m = 2 ^ 11)
    (hnofl : ¬ FloatFmt.maxFinite fmt16 < (m : ℚ) * qpow2 (e0 - 10))
    (hge : 2 ^ 10 ≤ m) :
    packBits fmt16 (.finite s mag) =
      .ok ((if s then 2 ^ 15 else 0) + (e0 + 15).toNat * 2 ^ 10 + (m - 2 ^ 10).toNat) := by
  have habs : |mag| = mag := abs_of_pos hpos
  have hne : ¬ |mag| = 0 := by rw [habs]; exact ne_of_gt hpos
  have hmax : max (floorLog2 |mag|) (FloatFmt.emin fmt16) = e0 := by
    rw [habs, he0]
    have he : FloatFmt.emin fmt16 = -14 := by norm_num [FloatFmt.emin, fmt16]
    rw [he]
    omega
  simp only [packBits, hne, if_false]
  rw [habs] at hmax ⊢
  have hmant : ((fmt16.mant : ℤ)) = 10 := by norm_num [fmt16]
  rw [hmant, hmax, hm, if_neg hnofl]
  have hnoc2 : ¬ m = 2 ^ (fmt16.mant + 1) := by
    have he : (2 : ℤ) ^ (fmt16.mant + 1) = 2 ^ 11 := by norm_num [fmt16]
    rw [he]
    exact hnoc
  rw [if_neg hnoc2]
  rw [if_neg (by norm_num [fmt16]; omega : ¬ ((e0, m).2 < 2 ^ fmt16.mant))]
  have h1 : ((e0, m).1 - FloatFmt.emin fmt16 + 1).toNat = (e0 + 15).toNat := by
    norm_num [FloatFmt.emin, fmt16]
    omega
  have h2 : ((e0, m).2 - 2 ^ fmt16.mant).toNat = (m - 2 ^ 10).toNat := by
    norm_num [fmt16]
  rw [h1, h2]
  norm_num [fmt16]

theorem packBits16_sub (s : Bool) (mag : ℚ) (e0 m : ℤ)
    (hpos : 0 < mag)
    (he0 : floorLog2 mag = e0)
    (he : e0 < -14)
    (hm : rhe (mag * qpow2 24) = m)
    (hnofl : ¬ FloatFmt.maxFinite fmt16 < (m : ℚ) * qpow2 (-14 - 10))
    (hlt : m < 2 ^ 10)
    (h0 : 0 ≤ m) :
    packBits fmt16 (.finite s mag) = .ok ((if s then 2 ^ 15 else 0) + m.toNat) := by
  have habs : |mag| = mag := abs_of_pos hpos
  have hne : ¬ |mag| = 0 := by rw [habs]; exact ne_of_gt hpos
  have hmax : max (floorLog2 |mag|) (FloatFmt.emin fmt16) = -14 := by
    rw [habs, he0]
    have hh : FloatFmt.emin fmt16 = -14 := by norm_num [FloatFmt.emin, fmt16]
    rw [hh]
    omega
  simp only [packBits, hne, if_false]
  rw [habs] at hmax ⊢
  have hmant : ((fmt16.mant : ℤ)) = 10 := by norm_num [fmt16]
  rw [hmant, hmax]
  rw [show (10 : ℤ) - -14 = 24 by norm_num, hm]
  rw [if_neg hnofl]
  rw [if_neg (by norm_num [fmt16] <;> omega : ¬ m = 2 ^ (fmt16.mant + 1))]
  rw [if_pos (by norm_num [fmt16] <;> omega : ((-14 : ℤ), m).2 < 2 ^ fmt16.mant)]
  norm_num [fmt16]

theorem decode16_bits_zero : decodeBits fmt16 0 = .finite false 0 := by
  unfold decodeBits
  norm_num [fmt16]

theorem decode16_bits_signbit : decodeBits fmt16 (2 ^ 15) = .finite true 0 := by
  unfold decodeBits
  norm_num [fmt16]

theorem decode16_bits_one : decodeBits fmt16 1 = .finite false (qpow2 (-24)) := by
  unfold decodeBits
  norm_num [fmt16, FloatFmt.emin]

theorem float_to_hex16_of_pack (v : F754) (bits : ℕ) (h : packBits fmt16 v = .ok bits) :
    float_to_hex_value v "float16" = .ok ("0x" ++ String.mk (natHexPad 4 bits)) := by
  unfold float_to_hex_value
  rw [show _validate_float_type "float16" = .ok () from rfl]
  show (if ("float16" : String) = "float32" then _ else _) = _
  rw [if_neg (by decide)]
  show (if ("float16" : String) = "float16" then _ else _) = _
  rw [if_pos rfl, h]

theorem float_to_hex16_of_err (v : F754) (e : String) (h : packBits fmt16 v = .error e) :
    float_to_hex_value v "float16" = .error e := by
  unfold float_to_hex_value
  rw [show _validate_float_type "float16" = .ok () from rfl]
  show (if ("float16" : String) = "float32" then _ else _) = _
  rw [if_neg (by decide)]
  show (if ("float16" : String) = "float16" then _ else _) = _
  rw [if_pos rfl, h]

theorem hex16_decode (bits : ℕ) (h : bits < 2 ^ 16) :
    hex_to_float_value ("0x" ++ String.mk (natHexPad 4 bits)) "float16" =
      .ok (decodeBits fmt16 bits) := by
  have h16 : bits < 16 ^ 4 := by norm_num at h ⊢; exact h
  have hlen : (natHexPad 4 bits).length = 4 := natHexPad_len 4 bits (by norm_num) h16
  have hup : ∀ c ∈ natHexPad 4 bits, isUpHex c = true :=
    List.all_eq_true.mp (natHexPad_all 4 bits)
  have hstr : ("0x" ++ String.mk (natHexPad 4 bits)) = ⟨'0' :: 'x' :: natHexPad 4 bits⟩ := rfl
  rw [hstr]
  unfold hex_to_float_value
  rw [show _validate_float_type "float16" = .ok () from rfl]
  show (if ("float16" : String) = "float32" then _ else _) = _
  rw [if_neg (by decide)]
  show (if ("float16" : String) = "float16" then _ else _) = _
  rw [if_pos rfl, normalizeHex_0x _ hup, zfill_of_long 4 _ (by omega),
    bytesFromHex_digits _ hup (by omega), hlen]
  dsimp only
  rw [if_pos (by norm_num : (4 : ℕ) / 2 = 2), natHexPad_val]

/-- C8 counterexample: the float16 thresholds are not the format boundaries
the claim states.  The magnitude 65505 exceeds the largest finite float16
value (65504) yet encodes without an overflow error (rounding down to
`0x7BFF`), and the magnitude `3 / 2^26`, strictly below the smallest
denormal `2^-24`, encodes to the non-zero pattern `0x0001` (which decodes
to the smallest denormal), not to signed zero. -/
theorem c8_float16_thresholds_counterexample :
    FloatFmt.maxFinite fmt16 = 65504 ∧
    (65504 : ℚ) < 65505 ∧
    float_to_hex_value (.finite false 65505) "float16" = .ok "0x7BFF" ∧
    (0 : ℚ) < 3 / 2 ^ 26 ∧ (3 : ℚ) / 2 ^ 26 < qpow2 (-24) ∧
    float_to_hex_value (.finite false (3 / 2 ^ 26)) "float16" = .ok "0x0001" ∧
    hex_to_float_value "0x0001" "float16" = .ok (.finite false (qpow2 (-24))) ∧
    (0 : ℚ) < qpow2 (-24) := by
  have he0 : floorLog2 (65505 : ℚ) = 15 := by
    apply floorLog2_unique _ _ (by norm_num)
    · rw [show (15 : ℤ) = ((15 : ℕ) : ℤ) by norm_num, qpow2_natCast]
      norm_num
    · rw [show (15 : ℤ) + 1 = ((16 : ℕ) : ℤ) by norm_num, qpow2_natCast]
      norm_num
  have hm : rhe ((65505 : ℚ) * qpow2 (10 - 15)) = 2047 := by
    rw [show (10 : ℤ) - 15 = -((5 : ℕ) : ℤ) by norm_num, qpow2_neg_nat]
    apply rhe_eq_of_lt_half
    · norm_num
    · norm_num
  have hnofl : ¬ FloatFmt.maxFinite fmt16 < ((2047 : ℤ) : ℚ) * qpow2 ((15 : ℤ) - 10) := by
    rw [maxFinite16, show (15 : ℤ) - 10 = ((5 : ℕ) : ℤ) by norm_num, qpow2_natCast]
    push_cast
    norm_num
  have hpack : packBits fmt16 (.finite false 65505) = .ok 31743 := by
    rw [packBits16_normal false 65505 15 2047 (by norm_num) he0 (by norm_num) hm
      (by decide) hnofl (by decide)]
    decide
  have he0s : floorLog2 ((3 : ℚ) / 2 ^ 26) = -25 := by
    apply floorLog2_unique _ _ (by norm_num)
    · rw [show (-25 : ℤ) = -((25 : ℕ) : ℤ) by norm_num, qpow2_neg_nat]
      norm_num
    · rw [show (-25 : ℤ) + 1 = -((24 : ℕ) : ℤ) by norm_num, qpow2_neg_nat]
      norm_num
  have hms : rhe ((3 : ℚ) / 2 ^ 26 * qpow2 24) = 1 := by
    rw [show (24 : ℤ) = ((24 : ℕ) : ℤ) by norm_num, qpow2_natCast,
      show (3 : ℚ) / 2 ^ 26 * 2 ^ 24 = 3 / 4 by norm_num]
    have h1 := rhe_eq_succ_of_half_lt (3 / 4) 0 (by norm_num) (by norm_num)
    simpa using h1
  have hnofls : ¬ FloatFmt.maxFinite fmt16 < ((1 : ℤ) : ℚ) * qpow2 ((-14 : ℤ) - 10) := by
    rw [maxFinite16, show (-14 : ℤ) - 10 = -((24 : ℕ) : ℤ) by norm_num, qpow2_neg_nat]
    push_cast
    norm_num
  have hpacks : packBits fmt16 (.finite false (3 / 2 ^ 26)) = .ok 1 := by
    rw [packBits16_sub false _ (-25) 1 (by norm_num) he0s (by norm_num) hms hnofls
      (by decide) (by decide)]
    decide
  refine ⟨maxFinite16, by norm_num, ?_, by norm_num, ?_, ?_, ?_, qpow2_pos _⟩
  · rw [float_to_hex16_of_pack _ _ hpack]
    unfold natHexPad
    rw [natHex_eval 4 31743 (by norm_num) (by norm_num)]
    decide
  · rw [show (-24 : ℤ) = -((24 : ℕ) : ℤ) by norm_num, qpow2_neg_nat]
    norm_num
  · rw [float_to_hex16_of_pack _ _ hpacks]
    decide
  · rw [show ("0x0001" : String) = "0x" ++ String.mk (natHexPad 4 1) from by decide,
      hex16_decode 1 (by norm_num), decode16_bits_one]

/-- C8 (amended): the float16 encoder raises the overflow error exactly
from the rounding threshold upwards — every magnitude of at least 65520
(the midpoint above the largest finite float16 value 65504) errors with
`float too large to pack` rather than saturating to infinity — and every
positive magnitude of at most `2^-25` (half the smallest denormal)
underflows to a signed zero whose sign survives decoding. -/
theorem c8_float16_overflow_underflow :
    (∀ (s : Bool) (mag : ℚ), (65520 : ℚ) ≤ mag →
      float_to_hex_value (.finite s mag) "float16" = .error "float too large to pack") ∧
    (∀ (s : Bool) (mag : ℚ), 0 < mag → mag ≤ qpow2 (-25) →
      float_to_hex_value (.finite s mag) "float16" =
          .ok (if s then "0x8000" else "0x0000") ∧
        hex_to_float_value (if s then "0x8000" else "0x0000") "float16" =
          .ok (.finite s 0)) := by
  constructor
  · intro s mag h
    exact float_to_hex16_of_err _ _ (packBits16_overflow s mag h)
  · intro s mag h0 h
    constructor
    · cases s
      · rw [float_to_hex16_of_pack _ _ (packBits16_underflow false mag h0 h)]
        decide
      · rw [float_to_hex16_of_pack _ _ (packBits16_underflow true mag h0 h)]
        show Except.ok ("0x" ++ String.mk (natHexPad 4 (2 ^ 15))) = _
        unfold natHexPad
        rw [natHex_eval 4 (2 ^ 15) (by norm_num) (by norm_num)]
        decide
    · cases s
      · show hex_to_float_value "0x0000" "float16" = .ok (.finite false 0)
        rw [show ("0x0000" : String) = "0x" ++ String.mk (natHexPad 4 0) from by decide,
          hex16_decode 0 (by norm_num), decode16_bits_zero]
      · show hex_to_float_value "0x8000" "float16" = .ok (.finite true 0)
        have hs : ("0x8000" : String) = "0x" ++ String.mk (natHexPad 4 (2 ^ 15)) := by
          unfold natHexPad
          rw [natHex_eval 4 (2 ^ 15) (by norm_num) (by norm_num)]
          decide
        rw [hs, hex16_decode (2 ^ 15) (by norm_num), decode16_bits_signbit]

/-- C8 witness: the overflow branch at magnitude 65536 and the underflow
branch at magnitude `2^-25` with a negative sign. -/
theorem c8_float16_overflow_underflow_witness :
    ((65520 : ℚ) ≤ 65536 ∧
      float_to_hex_value (.finite false 65536) "float16" =
        .error "float too large to pack") ∧
    ((0 : ℚ) < qpow2 (-25) ∧ qpow2 (-25) ≤ qpow2 (-25) ∧
      float_to_hex_value (.finite true (qpow2 (-25))) "float16" =
          .ok (if true then "0x8000" else "0x0000") ∧
        hex_to_float_value (if true then "0x8000" else "0x0000") "float16" =
          .ok (.finite true 0)) :=
  ⟨⟨by norm_num, c8_float16_overflow_underflow.1 false 65536 (by norm_num)⟩,
   ⟨qpow2_pos _, le_refl _,
    (c8_float16_overflow_underflow.2 true (qpow2 (-25)) (qpow2_pos _) (le_refl _)).1,
    (c8_float16_overflow_underflow.2 true (qpow2 (-25)) (qpow2_pos _) (le_refl _)).2⟩⟩

/-! ### C9 — prefixes, padding and over-long input in the decoders -/

theorem upHex_ne_xX (c : Char) (h : isUpHex c = true) : ¬ c = 'x' ∧ ¬ c = 'X' := by
  have hm : c ∈ "0123456789ABCDEF".data := by simpa [isUpHex] using h
  fin_cases hm <;> exact ⟨by decide, by decide⟩

theorem upHex_digit_le (c : Char) (h : isUpHex c = true) : hexDigitVal c ≤ 15 := by
  have hm : c ∈ "0123456789ABCDEF".data := by simpa [isUpHex] using h
  fin_cases hm <;> decide

theorem binDigit_facts (c : Char) (h : isBinDigit c = true) :
    isPySpace c = false ∧ ¬ c = 'b' ∧ ¬ c = 'B' := by
  have hm : c = '0' ∨ c = '1' := by simpa [isBinDigit] using h
  rcases hm with rfl | rfl <;> exact ⟨by decide, by decide, by decide⟩

theorem startsWith0x_of_upHex (l : List Char) (h : ∀ c ∈ l, isUpHex c = true) :
    startsWith0x l = false := by
  cases l with
  | nil => rfl
  | cons c1 r1 =>
    cases r1 with
    | nil => rfl
    | cons c2 r =>
      obtain ⟨h1, h2⟩ := upHex_ne_xX c2 (h c2 (by simp))
      show (decide (c1 = '0') && (decide (c2 = 'x') || decide (c2 = 'X'))) = false
      rw [decide_eq_false_iff_not.mpr h1, decide_eq_false_iff_not.mpr h2]
      simp

theorem startsWith0b_of_bin (l : List Char) (h : ∀ c ∈ l, isBinDigit c = true) :
    startsWith0b l = false := by
  cases l with
  | nil => rfl
  | cons c1 r1 =>
    cases r1 with
    | nil => rfl
    | cons c2 r =>
      obtain ⟨_, h1, h2⟩ := binDigit_facts c2 (h c2 (by simp))
      show (decide (c1 = '0') && (decide (c2 = 'b') || decide (c2 = 'B'))) = false
      rw [decide_eq_false_iff_not.mpr h1, decide_eq_false_iff_not.mpr h2]
      simp

theorem startsWithB_of_bin (l : List Char) (h : ∀ c ∈ l, isBinDigit c = true) :
    startsWithB l = false := by
  cases l with
  | nil => rfl
  | cons c1 r =>
    obtain ⟨_, h1, h2⟩ := binDigit_facts c1 (h c1 (by simp))
    show (decide (c1 = 'b') || decide (c1 = 'B')) = false
    rw [decide_eq_false_iff_not.mpr h1, decide_eq_false_iff_not.mpr h2]
    simp

theorem normalizeHex_plain (l : List Char) (h : ∀ c ∈ l, isUpHex c = true) :
    _normalize_hex ⟨l⟩ = ⟨l⟩ := by
  unfold _normalize_hex
  rw [pyStrip_no_space l (fun c hc => (upHex_props c (h c hc)).2.2.1)]
  rw [if_neg (by
    rw [show ((⟨l⟩ : String)).data = l from rfl, startsWith0x_of_upHex l h]
    exact Bool.false_ne_true)]
  exact strUpper_fixed l h

theorem normalizeBin_plain (l : List Char) (h : ∀ c ∈ l, isBinDigit c = true) :
    _normalize_bin ⟨l⟩ = ⟨l⟩ := by
  unfold _normalize_bin
  rw [pyStrip_no_space l (fun c hc => (binDigit_facts c (h c hc)).1)]
  rw [if_neg (by
    rw [show ((⟨l⟩ : String)).data = l from rfl, startsWith0b_of_bin l h]
    exact Bool.false_ne_true)]
  rw [if_neg (by
    rw [show ((⟨l⟩ : String)).data = l from rfl, startsWithB_of_bin l h]
    exact Bool.false_ne_true)]

theorem normalizeBin_0b (l : List Char) (h : ∀ c ∈ l, isBinDigit c = true) :
    _normalize_bin ⟨'0' :: 'b' :: l⟩ = ⟨l⟩ := by
  have hns : ∀ c ∈ ('0' :: 'b' :: l), isPySpace c = false := by
    intro c hc
    rcases List.mem_cons.mp hc with rfl | hc2
    · rfl
    rcases List.mem_cons.mp hc2 with rfl | hc3
    · rfl
    · exact (binDigit_facts c (h c hc3)).1
  unfold _normalize_bin
  rw [pyStrip_no_space _ hns]
  rw [if_pos (by rfl : startsWith0b (⟨'0' :: 'b' :: l⟩ : String).data = true)]
  rfl

theorem normalizeBin_b (l : List Char) (h : ∀ c ∈ l, isBinDigit c = true) :
    _normalize_bin ⟨'b' :: l⟩ = ⟨l⟩ := by
  have hns : ∀ c ∈ ('b' :: l), isPySpace c = false := by
    intro c hc
    rcases List.mem_cons.mp hc with rfl | hc2
    · rfl
    · exact (binDigit_facts c (h c hc2)).1
  have h0b : startsWith0b ('b' :: l) = false := by
    cases l with
    | nil => rfl
    | cons c r => rfl
  unfold _normalize_bin
  rw [pyStrip_no_space _ hns]
  rw [if_neg (by
    rw [show ((⟨'b' :: l⟩ : String)).data = 'b' :: l from rfl, h0b]
    exact Bool.false_ne_true)]
  rw [if_pos (by rfl : startsWithB (⟨'b' :: l⟩ : String).data = true)]
  rfl

theorem hex_to_float_congr (a b ft : String) (h : _normalize_hex a = _normalize_hex b) :
    hex_to_float_value a ft = hex_to_float_value b ft := by
  unfold hex_to_float_value
  rw [h]

theorem bin_to_float_congr (a b ft : String) (h : _normalize_bin a = _normalize_bin b) :
    bin_to_float_value a ft = bin_to_float_value b ft := by
  unfold bin_to_float_value
  rw [h]

theorem hexFoldl_lt (l : List Char) (h : ∀ c ∈ l, isUpHex c = true) :
    ∀ a, l.foldl (fun a c => 16 * a + hexDigitVal c) a < (a + 1) * 16 ^ l.length := by
  induction l with
  | nil =>
    intro a
    simp
  | cons c r ih =>
    intro a
    rw [List.foldl_cons]
    have hd : hexDigitVal c ≤ 15 := upHex_digit_le c (h c (by simp))
    have h1 := ih (fun c hc => h c (by simp [hc])) (16 * a + hexDigitVal c)
    have h2 : (16 * a + hexDigitVal c + 1) * 16 ^ r.length ≤ (a + 1) * 16 ^ (c :: r).length := by
      rw [List.length_cons, pow_succ]
      have h3 : 16 * a + hexDigitVal c + 1 ≤ (a + 1) * 16 := by omega
      calc (16 * a + hexDigitVal c + 1) * 16 ^ r.length
          ≤ (a + 1) * 16 * 16 ^ r.length := Nat.mul_le_mul_right _ h3
        _ = (a + 1) * (16 ^ r.length * 16) := by ring
    omega

theorem hexValL_lt (l : List Char) (h : ∀ c ∈ l, isUpHex c = true) :
    hexValL l < 16 ^ l.length := by
  have h1 := hexFoldl_lt l h 0
  simpa [hexValL] using h1

theorem binFoldl_lt (l : List Char) :
    ∀ a, l.foldl (fun a c => 2 * a + (if c = '1' then 1 else 0)) a < (a + 1) * 2 ^ l.length := by
  induction l with
  | nil =>
    intro a
    simp
  | cons c r ih =>
    intro a
    rw [List.foldl_cons]
    have hd : (if c = '1' then 1 else 0) ≤ 1 := by split_ifs <;> omega
    have h1 := ih (2 * a + (if c = '1' then 1 else 0))
    have h2 : (2 * a + (if c = '1' then 1 else 0) + 1) * 2 ^ r.length ≤
        (a + 1) * 2 ^ (c :: r).length := by
      rw [List.length_cons, pow_succ]
      have h3 : 2 * a + (if c = '1' then 1 else 0) + 1 ≤ (a + 1) * 2 := by omega
      calc (2 * a + (if c = '1' then 1 else 0) + 1) * 2 ^ r.length
          ≤ (a + 1) * 2 * 2 ^ r.length := Nat.mul_le_mul_right _ h3
        _ = (a + 1) * (2 ^ r.length * 2) := by ring
    omega

theorem binValL_lt (l : List Char) : binValL l < 2 ^ l.length := by
  have h1 := binFoldl_lt l 0
  simpa [binValL] using h1

theorem binValL_zeros (k : ℕ) (l : List Char) :
    binValL (List.replicate k '0' ++ l) = binValL l := by
  induction k with
  | zero => rfl
  | succ k ih =>
    rw [List.replicate_succ, List.cons_append]
    show binValL (List.replicate k '0' ++ l) = binValL l
    exact ih

theorem hex32_decode_str (s : String) (h : ∀ c ∈ s.data, isUpHex c = true)
    (hlen : s.data.length ≤ 8) :
    hex_to_float_value s "float32" = .ok (decodeBits fmt32 (hexValL s.data)) := by
  obtain ⟨l⟩ := s
  show hex_to_float_value ⟨l⟩ "float32" = .ok (decodeBits fmt32 (hexValL l))
  replace h : ∀ c ∈ l, isUpHex c = true := h
  replace hlen : l.length ≤ 8 := hlen
  unfold hex_to_float_value
  rw [show _validate_float_type "float32" = .ok () from rfl]
  show (if ("float32" : String) = "float32" then _ else _) = _
  rw [if_pos rfl, normalizeHex_plain l h]
  rw [show zfill 8 ⟨l⟩ = ⟨List.replicate (8 - l.length) '0' ++ l⟩ from rfl]
  have hup2 : ∀ c ∈ List.replicate (8 - l.length) '0' ++ l, isUpHex c = true := by
    intro c hc
    rcases List.mem_append.mp hc with hc1 | hc2
    · rw [List.eq_of_mem_replicate hc1]; rfl
    · exact h c hc2
  have hlen2 : (List.replicate (8 - l.length) '0' ++ l).length = 8 := by
    rw [List.length_append, List.length_replicate]
    omega
  rw [bytesFromHex_digits _ hup2 (by omega), hlen2]
  dsimp only
  rw [if_pos (by norm_num : (8 : ℕ) / 2 = 4), hexValL_zeros]

theorem hex32_overlong (s : String) (h : ∀ c ∈ s.data, isUpHex c = true)
    (hlen : 8 < s.data.length) :
    ∃ e, hex_to_float_value s "float32" = .error e := by
  obtain ⟨l⟩ := s
  replace h : ∀ c ∈ l, isUpHex c = true := h
  replace hlen : 8 < l.length := hlen
  rcases Nat.even_or_odd l.length with he | ho
  · refine ⟨"unpack requires a buffer of 4 bytes", ?_⟩
    show hex_to_float_value ⟨l⟩ "float32" = _
    unfold hex_to_float_value
    rw [show _validate_float_type "float32" = .ok () from rfl]
    show (if ("float32" : String) = "float32" then _ else _) = _
    rw [if_pos rfl, normalizeHex_plain l h, zfill_of_long 8 l (by omega),
      bytesFromHex_digits l h (Nat.even_iff.mp he)]
    dsimp only
    rw [if_neg (by
      have h2 := Nat.even_iff.mp he
      omega : ¬ l.length / 2 = 4)]
  · refine ⟨"non-hexadecimal number found in fromhex() arg", ?_⟩
    show hex_to_float_value ⟨l⟩ "float32" = _
    unfold hex_to_float_value
    rw [show _validate_float_type "float32" = .ok () from rfl]
    show (if ("float32" : String) = "float32" then _ else _) = _
    rw [if_pos rfl, normalizeHex_plain l h, zfill_of_long 8 l (by omega)]
    have hb : bytesFromHex ⟨l⟩ = .error "non-hexadecimal number found in fromhex() arg" := by
      unfold bytesFromHex
      have hfil : l.filter (fun c => ¬ c = ' ') = l := by
        rw [List.filter_eq_self]
        intro c hc
        simpa using (upHex_props c (h c hc)).2.2.2
      show (if (l.filter (fun c => ¬ c = ' ')).all isHexDigit ∧
          (l.filter (fun c => ¬ c = ' ')).length % 2 = 0 then _ else _) = _
      rw [hfil]
      rw [if_neg (by
        intro hc
        have h2 := Nat.odd_iff.mp ho
        omega)]
    rw [hb]

theorem pyIntBase2_zfill32 (l : List Char) (h : ∀ c ∈ l, isBinDigit c = true) :
    pyIntBase2 (zfill 32 ⟨l⟩) = some (binValL l) := by
  rw [show zfill 32 ⟨l⟩ = ⟨List.replicate (32 - l.length) '0' ++ l⟩ from rfl]
  unfold pyIntBase2
  have hne : (⟨List.replicate (32 - l.length) '0' ++ l⟩ : String).data ≠ [] := by
    show List.replicate (32 - l.length) '0' ++ l ≠ []
    intro hc
    have h1 := congrArg List.length hc
    rw [List.length_append, List.length_replicate, List.length_nil] at h1
    omega
  have hall : (⟨List.replicate (32 - l.length) '0' ++ l⟩ : String).data.all isBinDigit = true := by
    show (List.replicate (32 - l.length) '0' ++ l).all isBinDigit = true
    rw [List.all_append, Bool.and_eq_true]
    refine ⟨?_, List.all_eq_true.mpr h⟩
    rw [List.all_eq_true]
    intro c hc
    rw [List.eq_of_mem_replicate hc]
    rfl
  rw [if_pos ⟨hne, hall⟩]
  show some (binValL (List.replicate (32 - l.length) '0' ++ l)) = some (binValL l)
  rw [binValL_zeros]

theorem bin32_reduces (s : String) :
    bin_to_float_value s "float32" =
      match pyIntBase2 (zfill 32 (_normalize_bin s)) with
      | none => .error "invalid literal for int() with base 2"
      | some n => hex_to_float_value (String.mk (natHexPad 8 n)) "float32" := by
  unfold bin_to_float_value
  rw [show _validate_float_type "float32" = .ok () from rfl]
  show (match pyIntBase2 (zfill (if ("float32" : String) = "float32" then 32 else 16)
      (_normalize_bin s)) with
    | none => Except.error "invalid literal for int() with base 2"
    | some n =>
      hex_to_float_value
        (String.mk (natHexPad ((if ("float32" : String) = "float32" then 32 else 16) / 4) n))
        "float32") = _
  rw [if_pos rfl]

theorem bin32_decode_str (s : String) (h : ∀ c ∈ s.data, isBinDigit c = true)
    (hfit : binValL s.data < 2 ^ 32) :
    bin_to_float_value s "float32" = .ok (decodeBits fmt32 (binValL s.data)) := by
  obtain ⟨l⟩ := s
  replace h : ∀ c ∈ l, isBinDigit c = true := h
  replace hfit : binValL l < 2 ^ 32 := hfit
  rw [bin32_reduces, normalizeBin_plain l h, pyIntBase2_zfill32 l h]
  dsimp only
  rw [hex32_decode_str (String.mk (natHexPad 8 (binValL l)))
    (List.all_eq_true.mp (natHexPad_all 8 (binValL l))) (by
      rw [show (String.mk (natHexPad 8 (binValL l))).data = natHexPad 8 (binValL l) from rfl]
      rw [natHexPad_len 8 (binValL l) (by norm_num) (by norm_num at hfit ⊢; exact hfit)]),
    show (String.mk (natHexPad 8 (binValL l))).data = natHexPad 8 (binValL l) from rfl,
    natHexPad_val]

theorem bin32_overlong_error (s : String) (h : ∀ c ∈ s.data, isBinDigit c = true)
    (hlen : 32 < s.data.length) (hbig : 2 ^ 32 ≤ binValL s.data) :
    ∃ e, bin_to_float_value s "float32" = .error e := by
  obtain ⟨l⟩ := s
  replace h : ∀ c ∈ l, isBinDigit c = true := h
  replace hlen : 32 < l.length := hlen
  replace hbig : 2 ^ 32 ≤ binValL l := hbig
  have hhexlen : 8 < (natHex (binValL l)).length := by
    by_contra hc
    push_neg at hc
    have h1 : hexValL (natHex (binValL l)) < 16 ^ (natHex (binValL l)).length :=
      hexValL_lt _ (List.all_eq_true.mp (natHex_all _))
    rw [natHex_val] at h1
    have h2 : (16 : ℕ) ^ (natHex (binValL l)).length ≤ 16 ^ 8 :=
      Nat.pow_le_pow_right (by norm_num) hc
    norm_num at h2
    omega
  have hpad : natHexPad 8 (binValL l) = natHex (binValL l) := by
    unfold natHexPad
    rw [Nat.sub_eq_zero_of_le (by omega), List.replicate_zero, List.nil_append]
  obtain ⟨e, he⟩ := hex32_overlong (String.mk (natHex (binValL l)))
    (List.all_eq_true.mp (natHex_all _)) hhexlen
  refine ⟨e, ?_⟩
  rw [bin32_reduces, normalizeBin_plain l h, pyIntBase2_zfill32 l h]
  dsimp only
  rw [hpad]
  exact he

theorem valOf32_one : valOf32 127 0 = 1 := by
  rw [valOf32, if_neg (by norm_num),
    show ((2 ^ 23 + 0 : ℕ) : ℚ) = (2 : ℚ) ^ 23 by norm_num,
    show ((127 : ℕ) : ℤ) - 150 = -23 by norm_num,
    ← qpow2_natCast 23, ← qpow2_add,
    show ((23 : ℕ) : ℤ) + (-23 : ℤ) = 0 by norm_num,
    qpow2_eq_zpow]
  norm_num

/-- C9 counterexample: the decoders do not accept the bare `x` hex prefix
the claim lists — `hex_to_float_value "x3F800000" "float32"` errors while
the same digits with `0x` (or no) prefix decode to `1.0` — and over-long
binary input is not always rejected: a 33-character binary string whose
value fits in 32 bits is silently accepted. -/
theorem c9_prefix_overlong_counterexample :
    hex_to_float_value "x3F800000" "float32" =
      .error "non-hexadecimal number found in fromhex() arg" ∧
    hex_to_float_value "0x3F800000" "float32" = .ok (.finite false 1) ∧
    ("000111111100000000000000000000000" : String).data.length = 33 ∧
    bin_to_float_value "000111111100000000000000000000000" "float32" =
      .ok (.finite false 1) := by
  have hdec : decodeBits fmt32 1065353216 = .finite false 1 := by
    rw [show (1065353216 : ℕ) = bitsOf32 false 127 0 from by decide,
      decode_bitsOf32 false 127 0 (by norm_num) (by norm_num), valOf32_one]
  refine ⟨by decide, ?_, by decide, ?_⟩
  · have hb : ("0x3F800000" : String) = "0x" ++ String.mk (natHexPad 8 1065353216) := by
      unfold natHexPad
      rw [natHex_eval 8 1065353216 (by norm_num) (by norm_num)]
      decide
    rw [hb, hex32_decode 1065353216 (by norm_num), hdec]
  · rw [bin32_decode_str _ (by decide) (by decide),
      show binValL ("000111111100000000000000000000000" : String).data = 1065353216
        from by decide, hdec]


theorem bytesFromHex_odd (l : List Char) (h : ∀ c ∈ l, isUpHex c = true)
    (hodd : l.length % 2 = 1) :
    bytesFromHex ⟨l⟩ = .error "non-hexadecimal number found in fromhex() arg" := by
  unfold bytesFromHex
  have hfil : l.filter (fun c => ¬ c = ' ') = l := by
    rw [List.filter_eq_self]
    intro c hc
    simpa using (upHex_props c (h c hc)).2.2.2
  show (if (l.filter (fun c => ¬ c = ' ')).all isHexDigit ∧
      (l.filter (fun c => ¬ c = ' ')).length % 2 = 0 then _ else _) = _
  rw [hfil]
  rw [if_neg (by
    intro hc
    omega)]

theorem hex16_decode_str (s : String) (h : ∀ c ∈ s.data, isUpHex c = true)
    (hlen : s.data.length ≤ 4) :
    hex_to_float_value s "float16" = .ok (decodeBits fmt16 (hexValL s.data)) := by
  obtain ⟨l⟩ := s
  show hex_to_float_value ⟨l⟩ "float16" = .ok (decodeBits fmt16 (hexValL l))
  replace h : ∀ c ∈ l, isUpHex c = true := h
  replace hlen : l.length ≤ 4 := hlen
  unfold hex_to_float_value
  rw [show _validate_float_type "float16" = .ok () from rfl]
  show (if ("float16" : String) = "float32" then _ else _) = _
  rw [if_neg (by decide)]
  show (if ("float16" : String) = "float16" then _ else _) = _
  rw [if_pos rfl, normalizeHex_plain l h]
  rw [show zfill 4 ⟨l⟩ = ⟨List.replicate (4 - l.length) '0' ++ l⟩ from rfl]
  have hup2 : ∀ c ∈ List.replicate (4 - l.length) '0' ++ l, isUpHex c = true := by
    intro c hc
    rcases List.mem_append.mp hc with hc1 | hc2
    · rw [List.eq_of_mem_replicate hc1]; rfl
    · exact h c hc2
  have hlen2 : (List.replicate (4 - l.length) '0' ++ l).length = 4 := by
    rw [List.length_append, List.length_replicate]
    omega
  rw [bytesFromHex_digits _ hup2 (by omega), hlen2]
  dsimp only
  rw [if_pos (by norm_num : (4 : ℕ) / 2 = 2), hexValL_zeros]

theorem hex16_overlong (s : String) (h : ∀ c ∈ s.data, isUpHex c = true)
    (hlen : 4 < s.data.length) :
    ∃ e, hex_to_float_value s "float16" = .error e := by
  obtain ⟨l⟩ := s
  replace h : ∀ c ∈ l, isUpHex c = true := h
  replace hlen : 4 < l.length := hlen
  rcases Nat.even_or_odd l.length with he | ho
  · refine ⟨"unpack requires a buffer of 2 bytes", ?_⟩
    show hex_to_float_value ⟨l⟩ "float16" = _
    unfold hex_to_float_value
    rw [show _validate_float_type "float16" = .ok () from rfl]
    show (if ("float16" : String) = "float32" then _ else _) = _
    rw [if_neg (by decide)]
    show (if ("float16" : String) = "float16" then _ else _) = _
    rw [if_pos rfl, normalizeHex_plain l h, zfill_of_long 4 l (by omega),
      bytesFromHex_digits l h (Nat.even_iff.mp he)]
    dsimp only
    rw [if_neg (by
      have h2 := Nat.even_iff.mp he
      omega : ¬ l.length / 2 = 2)]
  · refine ⟨"non-hexadecimal number found in fromhex() arg", ?_⟩
    show hex_to_float_value ⟨l⟩ "float16" = _
    unfold hex_to_float_value
    rw [show _validate_float_type "float16" = .ok () from rfl]
    show (if ("float16" : String) = "float32" then _ else _) = _
    rw [if_neg (by decide)]
    show (if ("float16" : String) = "float16" then _ else _) = _
    rw [if_pos rfl, normalizeHex_plain l h, zfill_of_long 4 l (by omega),
      bytesFromHex_odd l h (Nat.odd_iff.mp ho)]

theorem hexValL_append_zeros4 (l : List Char) :
    hexValL (l ++ List.replicate 4 '0') = hexValL l * 65536 := by
  unfold hexValL
  rw [show List.replicate 4 '0' = ['0', '0', '0', '0'] from rfl, List.foldl_append]
  simp only [List.foldl_cons, List.foldl_nil]
  rw [show hexDigitVal '0' = 0 from rfl]
  ring

theorem hexbf16_decode_str (s : String) (h : ∀ c ∈ s.data, isUpHex c = true)
    (hlen : s.data.length ≤ 4) :
    hex_to_float_value s "bfloat16" = .ok (decodeBits fmt32 (hexValL s.data * 65536)) := by
  obtain ⟨l⟩ := s
  show hex_to_float_value ⟨l⟩ "bfloat16" = .ok (decodeBits fmt32 (hexValL l * 65536))
  replace h : ∀ c ∈ l, isUpHex c = true := h
  replace hlen : l.length ≤ 4 := hlen
  unfold hex_to_float_value
  rw [show _validate_float_type "bfloat16" = .ok () from rfl]
  show (if ("bfloat16" : String) = "float32" then _ else _) = _
  rw [if_neg (by decide)]
  show (if ("bfloat16" : String) = "float16" then _ else _) = _
  rw [if_neg (by decide), normalizeHex_plain l h]
  rw [show zfill 4 ⟨l⟩ ++ "0000" =
    ⟨(List.replicate (4 - l.length) '0' ++ l) ++ List.replicate 4 '0'⟩ from rfl]
  have hup2 : ∀ c ∈ (List.replicate (4 - l.length) '0' ++ l) ++ List.replicate 4 '0',
      isUpHex c = true := by
    intro c hc
    rcases List.mem_append.mp hc with hc1 | hc2
    · rcases List.mem_append.mp hc1 with hc3 | hc4
      · rw [List.eq_of_mem_replicate hc3]; rfl
      · exact h c hc4
    · rw [List.eq_of_mem_replicate hc2]; rfl
  have hlen2 : ((List.replicate (4 - l.length) '0' ++ l) ++ List.replicate 4 '0').length = 8 := by
    rw [List.length_append, List.length_append, List.length_replicate, List.length_replicate]
    omega
  rw [bytesFromHex_digits _ hup2 (by omega), hlen2]
  dsimp only
  rw [if_pos (by norm_num : (8 : ℕ) / 2 = 4), hexValL_append_zeros4, hexValL_zeros]

theorem hexbf16_overlong (s : String) (h : ∀ c ∈ s.data, isUpHex c = true)
    (hlen : 4 < s.data.length) :
    ∃ e, hex_to_float_value s "bfloat16" = .error e := by
  obtain ⟨l⟩ := s
  replace h : ∀ c ∈ l, isUpHex c = true := h
  replace hlen : 4 < l.length := hlen
  have hup2 : ∀ c ∈ l ++ List.replicate 4 '0', isUpHex c = true := by
    intro c hc
    rcases List.mem_append.mp hc with hc1 | hc2
    · exact h c hc1
    · rw [List.eq_of_mem_replicate hc2]; rfl
  have hlen2 : (l ++ List.replicate 4 '0').length = l.length + 4 := by
    rw [List.length_append, List.length_replicate]
  rcases Nat.even_or_odd l.length with he | ho
  · refine ⟨"unpack requires a buffer of 4 bytes", ?_⟩
    show hex_to_float_value ⟨l⟩ "bfloat16" = _
    unfold hex_to_float_value
    rw [show _validate_float_type "bfloat16" = .ok () from rfl]
    show (if ("bfloat16" : String) = "float32" then _ else _) = _
    rw [if_neg (by decide)]
    show (if ("bfloat16" : String) = "float16" then _ else _) = _
    rw [if_neg (by decide), normalizeHex_plain l h, zfill_of_long 4 l (by omega)]
    rw [show (⟨l⟩ : String) ++ "0000" = ⟨l ++ List.replicate 4 '0'⟩ from rfl]
    rw [bytesFromHex_digits _ hup2 (by
      rw [hlen2]
      have h2 := Nat.even_iff.mp he
      omega), hlen2]
    dsimp only
    rw [if_neg (by
      have h2 := Nat.even_iff.mp he
      omega : ¬ (l.length + 4) / 2 = 4)]
  · refine ⟨"non-hexadecimal number found in fromhex() arg", ?_⟩
    show hex_to_float_value ⟨l⟩ "bfloat16" = _
    unfold hex_to_float_value
    rw [show _validate_float_type "bfloat16" = .ok () from rfl]
    show (if ("bfloat16" : String) = "float32" then _ else _) = _
    rw [if_neg (by decide)]
    show (if ("bfloat16" : String) = "float16" then _ else _) = _
    rw [if_neg (by decide), normalizeHex_plain l h, zfill_of_long 4 l (by omega)]
    rw [show (⟨l⟩ : String) ++ "0000" = ⟨l ++ List.replicate 4 '0'⟩ from rfl]
    rw [bytesFromHex_odd _ hup2 (by
      rw [hlen2]
      have h2 := Nat.odd_iff.mp ho
      omega)]

theorem pyIntBase2_zfill16 (l : List Char) (h : ∀ c ∈ l, isBinDigit c = true) :
    pyIntBase2 (zfill 16 ⟨l⟩) = some (binValL l) := by
  rw [show zfill 16 ⟨l⟩ = ⟨List.replicate (16 - l.length) '0' ++ l⟩ from rfl]
  unfold pyIntBase2
  have hne : (⟨List.replicate (16 - l.length) '0' ++ l⟩ : String).data ≠ [] := by
    show List.replicate (16 - l.length) '0' ++ l ≠ []
    intro hc
    have h1 := congrArg List.length hc
    rw [List.length_append, List.length_replicate, List.length_nil] at h1
    omega
  have hall : (⟨List.replicate (16 - l.length) '0' ++ l⟩ : String).data.all isBinDigit = true := by
    show (List.replicate (16 - l.length) '0' ++ l).all isBinDigit = true
    rw [List.all_append, Bool.and_eq_true]
    refine ⟨?_, List.all_eq_true.mpr h⟩
    rw [List.all_eq_true]
    intro c hc
    rw [List.eq_of_mem_replicate hc]
    rfl
  rw [if_pos ⟨hne, hall⟩]
  show some (binValL (List.replicate (16 - l.length) '0' ++ l)) = some (binValL l)
  rw [binValL_zeros]

theorem bin16_reduces (s : String) :
    bin_to_float_value s "float16" =
      match pyIntBase2 (zfill 16 (_normalize_bin s)) with
      | none => .error "invalid literal for int() with base 2"
      | some n => hex_to_float_value (String.mk (natHexPad 4 n)) "float16" := by
  unfold bin_to_float_value
  rw [show _validate_float_type "float16" = .ok () from rfl]
  show (match pyIntBase2 (zfill (if ("float16" : String) = "float32" then 32 else 16)
      (_normalize_bin s)) with
    | none => Except.error "invalid literal for int() with base 2"
    | some n =>
      hex_to_float_value
        (String.mk (natHexPad ((if ("float16" : String) = "float32" then 32 else 16) / 4) n))
        "float16") = _
  rw [if_neg (by decide)]

theorem binbf16_reduces (s : String) :
    bin_to_float_value s "bfloat16" =
      match pyIntBase2 (zfill 16 (_normalize_bin s)) with
      | none => .error "invalid literal for int() with base 2"
      | some n => hex_to_float_value (String.mk (natHexPad 4 n)) "bfloat16" := by
  unfold bin_to_float_value
  rw [show _validate_float_type "bfloat16" = .ok () from rfl]
  show (match pyIntBase2 (zfill (if ("bfloat16" : String) = "float32" then 32 else 16)
      (_normalize_bin s)) with
    | none => Except.error "invalid literal for int() with base 2"
    | some n =>
      hex_to_float_value
        (String.mk (natHexPad ((if ("bfloat16" : String) = "float32" then 32 else 16) / 4) n))
        "bfloat16") = _
  rw [if_neg (by decide)]

theorem bin16_decode_str (s : String) (h : ∀ c ∈ s.data, isBinDigit c = true)
    (hfit : binValL s.data < 2 ^ 16) :
    bin_to_float_value s "float16" = .ok (decodeBits fmt16 (binValL s.data)) := by
  obtain ⟨l⟩ := s
  replace h : ∀ c ∈ l, isBinDigit c = true := h
  replace hfit : binValL l < 2 ^ 16 := hfit
  rw [bin16_reduces, normalizeBin_plain l h, pyIntBase2_zfill16 l h]
  dsimp only
  rw [hex16_decode_str (String.mk (natHexPad 4 (binValL l)))
    (List.all_eq_true.mp (natHexPad_all 4 (binValL l))) (by
      rw [show (String.mk (natHexPad 4 (binValL l))).data = natHexPad 4 (binValL l) from rfl]
      rw [natHexPad_len 4 (binValL l) (by norm_num) (by norm_num at hfit ⊢; exact hfit)]),
    show (String.mk (natHexPad 4 (binValL l))).data = natHexPad 4 (binValL l) from rfl,
    natHexPad_val]

theorem bin16_overlong_error (s : String) (h : ∀ c ∈ s.data, isBinDigit c = true)
    (hbig : 2 ^ 16 ≤ binValL s.data) :
    ∃ e, bin_to_float_value s "float16" = .error e := by
  obtain ⟨l⟩ := s
  replace h : ∀ c ∈ l, isBinDigit c = true := h
  replace hbig : 2 ^ 16 ≤ binValL l := hbig
  have hhexlen : 4 < (natHex (binValL l)).length := by
    by_contra hc
    push_neg at hc
    have h1 : hexValL (natHex (binValL l)) < 16 ^ (natHex (binValL l)).length :=
      hexValL_lt _ (List.all_eq_true.mp (natHex_all _))
    rw [natHex_val] at h1
    have h2 : (16 : ℕ) ^ (natHex (binValL l)).length ≤ 16 ^ 4 :=
      Nat.pow_le_pow_right (by norm_num) hc
    norm_num at h2
    omega
  have hpad : natHexPad 4 (binValL l) = natHex (binValL l) := by
    unfold natHexPad
    rw [Nat.sub_eq_zero_of_le (by omega), List.replicate_zero, List.nil_append]
  obtain ⟨e, he⟩ := hex16_overlong (String.mk (natHex (binValL l)))
    (List.all_eq_true.mp (natHex_all _)) hhexlen
  refine ⟨e, ?_⟩
  rw [bin16_reduces, normalizeBin_plain l h, pyIntBase2_zfill16 l h]
  dsimp only
  rw [hpad]
  exact he

theorem binbf16_decode_str (s : String) (h : ∀ c ∈ s.data, isBinDigit c = true)
    (hfit : binValL s.data < 2 ^ 16) :
    bin_to_float_value s "bfloat16" = .ok (decodeBits fmt32 (binValL s.data * 65536)) := by
  obtain ⟨l⟩ := s
  replace h : ∀ c ∈ l, isBinDigit c = true := h
  replace hfit : binValL l < 2 ^ 16 := hfit
  rw [binbf16_reduces, normalizeBin_plain l h, pyIntBase2_zfill16 l h]
  dsimp only
  rw [hexbf16_decode_str (String.mk (natHexPad 4 (binValL l)))
    (List.all_eq_true.mp (natHexPad_all 4 (binValL l))) (by
      rw [show (String.mk (natHexPad 4 (binValL l))).data = natHexPad 4 (binValL l) from rfl]
      rw [natHexPad_len 4 (binValL l) (by norm_num) (by norm_num at hfit ⊢; exact hfit)]),
    show (String.mk (natHexPad 4 (binValL l))).data = natHexPad 4 (binValL l) from rfl,
    natHexPad_val]

theorem binbf16_overlong_error (s : String) (h : ∀ c ∈ s.data, isBinDigit c = true)
    (hbig : 2 ^ 16 ≤ binValL s.data) :
    ∃ e, bin_to_float_value s "bfloat16" = .error e := by
  obtain ⟨l⟩ := s
  replace h : ∀ c ∈ l, isBinDigit c = true := h
  replace hbig : 2 ^ 16 ≤ binValL l := hbig
  have hhexlen : 4 < (natHex (binValL l)).length := by
    by_contra hc
    push_neg at hc
    have h1 : hexValL (natHex (binValL l)) < 16 ^ (natHex (binValL l)).length :=
      hexValL_lt _ (List.all_eq_true.mp (natHex_all _))
    rw [natHex_val] at h1
    have h2 : (16 : ℕ) ^ (natHex (binValL l)).length ≤ 16 ^ 4 :=
      Nat.pow_le_pow_right (by norm_num) hc
    norm_num at h2
    omega
  have hpad : natHexPad 4 (binValL l) = natHex (binValL l) := by
    unfold natHexPad
    rw [Nat.sub_eq_zero_of_le (by omega), List.replicate_zero, List.nil_append]
  obtain ⟨e, he⟩ := hexbf16_overlong (String.mk (natHex (binValL l)))
    (List.all_eq_true.mp (natHex_all _)) hhexlen
  refine ⟨e, ?_⟩
  rw [binbf16_reduces, normalizeBin_plain l h, pyIntBase2_zfill16 l h]
  dsimp only
  rw [hpad]
  exact he

/-- C9 (amended): for every float kind, hex decode accepts the `0x` prefix
or none — a bare `x` prefix is not stripped and fails `bytes.fromhex` —
left-zero-pads shorter input to the kind's width (8 hex digits for
float32, 4 for float16 and bfloat16) and rejects longer input with an
error; binary decode accepts `0b`, `b` or no prefix and left-zero-pads to
the kind's bit width (32 or 16), but rejects input longer than that width
only when its numeric value needs more than the width — an over-long
binary string whose value fits is silently accepted, which is why the
acceptance condition below is value-based rather than length-based. -/
theorem c9_prefix_padding_overlong :
    (∀ (s ft : String), (∀ c ∈ s.data, isUpHex c = true) →
      hex_to_float_value ("0x" ++ s) ft = hex_to_float_value s ft) ∧
    (∀ (s ft : String), (∀ c ∈ s.data, isBinDigit c = true) →
      bin_to_float_value ("0b" ++ s) ft = bin_to_float_value s ft ∧
      bin_to_float_value ("b" ++ s) ft = bin_to_float_value s ft) ∧
    (∀ s : String, (∀ c ∈ s.data, isUpHex c = true) →
      (s.data.length ≤ 8 →
        hex_to_float_value s "float32" = .ok (decodeBits fmt32 (hexValL s.data))) ∧
      (8 < s.data.length → ∃ e, hex_to_float_value s "float32" = .error e)) ∧
    (∀ s : String, (∀ c ∈ s.data, isUpHex c = true) →
      (s.data.length ≤ 4 →
        hex_to_float_value s "float16" = .ok (decodeBits fmt16 (hexValL s.data))) ∧
      (4 < s.data.length → ∃ e, hex_to_float_value s "float16" = .error e)) ∧
    (∀ s : String, (∀ c ∈ s.data, isUpHex c = true) →
      (s.data.length ≤ 4 →
        hex_to_float_value s "bfloat16" = .ok (decodeBits fmt32 (hexValL s.data * 65536))) ∧
      (4 < s.data.length → ∃ e, hex_to_float_value s "bfloat16" = .error e)) ∧
    (∀ s : String, (∀ c ∈ s.data, isBinDigit c = true) →
      (binValL s.data < 2 ^ 32 →
        bin_to_float_value s "float32" = .ok (decodeBits fmt32 (binValL s.data))) ∧
      (2 ^ 32 ≤ binValL s.data → ∃ e, bin_to_float_value s "float32" = .error e)) ∧
    (∀ s : String, (∀ c ∈ s.data, isBinDigit c = true) →
      (binValL s.data < 2 ^ 16 →
        bin_to_float_value s "float16" = .ok (decodeBits fmt16 (binValL s.data))) ∧
      (2 ^ 16 ≤ binValL s.data → ∃ e, bin_to_float_value s "float16" = .error e)) ∧
    (∀ s : String, (∀ c ∈ s.data, isBinDigit c = true) →
      (binValL s.data < 2 ^ 16 →
        bin_to_float_value s "bfloat16" = .ok (decodeBits fmt32 (binValL s.data * 65536))) ∧
      (2 ^ 16 ≤ binValL s.data →
        ∃ e, bin_to_float_value s "bfloat16" = .error e)) := by
  refine ⟨?_, ?_, ?_, ?_, ?_, ?_, ?_, ?_⟩
  · intro s ft h
    obtain ⟨l⟩ := s
    replace h : ∀ c ∈ l, isUpHex c = true := h
    exact hex_to_float_congr _ _ _ (by
      rw [show ("0x" ++ (⟨l⟩ : String) : String) = ⟨'0' :: 'x' :: l⟩ from rfl,
        normalizeHex_0x l h, normalizeHex_plain l h])
  · intro s ft h
    obtain ⟨l⟩ := s
    replace h : ∀ c ∈ l, isBinDigit c = true := h
    constructor
    · exact bin_to_float_congr _ _ _ (by
        rw [show ("0b" ++ (⟨l⟩ : String) : String) = ⟨'0' :: 'b' :: l⟩ from rfl,
          normalizeBin_0b l h, normalizeBin_plain l h])
    · exact bin_to_float_congr _ _ _ (by
        rw [show ("b" ++ (⟨l⟩ : String) : String) = ⟨'b' :: l⟩ from rfl,
          normalizeBin_b l h, normalizeBin_plain l h])
  · intro s h
    exact ⟨hex32_decode_str s h, hex32_overlong s h⟩
  · intro s h
    exact ⟨hex16_decode_str s h, hex16_overlong s h⟩
  · intro s h
    exact ⟨hexbf16_decode_str s h, hexbf16_overlong s h⟩
  · intro s h
    refine ⟨bin32_decode_str s h, fun hbig => ?_⟩
    have hlen : 32 < s.data.length := by
      by_contra hc
      push_neg at hc
      have h1 := binValL_lt s.data
      have h2 : (2 : ℕ) ^ s.data.length ≤ 2 ^ 32 := Nat.pow_le_pow_right (by norm_num) hc
      omega
    exact bin32_overlong_error s h hlen hbig
  · intro s h
    exact ⟨bin16_decode_str s h, bin16_overlong_error s h⟩
  · intro s h
    exact ⟨binbf16_decode_str s h, binbf16_overlong_error s h⟩

/-- C9 witness: the padding branch at the 4-digit float16 hex input
`3C00` (also decoded as bfloat16) and the `b` prefix plus value-fits
branches at the one-digit binary input `1` for float16. -/
theorem c9_prefix_padding_overlong_witness :
    ((∀ c ∈ ("3C00" : String).data, isUpHex c = true) ∧
      ("3C00" : String).data.length ≤ 4 ∧
      hex_to_float_value "3C00" "float16" =
        .ok (decodeBits fmt16 (hexValL ("3C00" : String).data)) ∧
      hex_to_float_value "3C00" "bfloat16" =
        .ok (decodeBits fmt32 (hexValL ("3C00" : String).data * 65536))) ∧
    ((∀ c ∈ ("1" : String).data, isBinDigit c = true) ∧
      binValL ("1" : String).data < 2 ^ 16 ∧
      bin_to_float_value ("b" ++ "1") "float16" = bin_to_float_value "1" "float16" ∧
      bin_to_float_value "1" "float16" =
        .ok (decodeBits fmt16 (binValL ("1" : String).data))) :=
  ⟨⟨by decide, by decide,
    (c9_prefix_padding_overlong.2.2.2.1 "3C00" (by decide)).1 (by decide),
    (c9_prefix_padding_overlong.2.2.2.2.1 "3C00" (by decide)).1 (by decide)⟩,
   ⟨by decide, by decide,
    (c9_prefix_padding_overlong.2.1 "1" "float16" (by decide)).2,
    (c9_prefix_padding_overlong.2.2.2.2.2.2.1 "1" (by decide)).1 (by decide)⟩⟩
